import Mathlib

/-!
Verification of an embeddable HTTP/1.1 server library (Rust) against its
natural-language specification.  The Rust sources are shallowly embedded:
byte buffers (Rust `Vec<u8>`, `&[u8]`, and the `Bytes` alias) become
`List Nat`, strings are handled at the UTF-8 byte level, machine integers
become `Nat` with explicit overflow bounds where the source can overflow,
fallible operations return `Except`/`Option`, and the async socket is an
explicit state (a list of read events) threaded through the functions.

Source files embedded here: `src/request.rs`, `src/client_socket.rs`,
`src/http_server.rs`, `src/http_server_trait.rs`, `src/map.rs`,
`src/http_method.rs`, `src/http_version.rs`, `src/utils.rs`,
`src/response.rs`, `src/status_code.rs`, `src/mime_type.rs`.

The repository's `socket` module (providing `Bytes` and `BUFFER_SIZE`) is
not present in the sources; `Bytes` is `Vec<u8>` by its usage, and the
reader buffer size is kept as an arbitrary positive parameter `B` so the
results hold whatever constant the missing module chooses.
-/

set_option maxRecDepth 10000

namespace HttpSrv

/-- Encode a Lean string literal as its byte list.  All literals used in
this development are ASCII, for which the code points coincide with the
UTF-8 bytes. -/
def s8 (s : String) : List Nat := s.data.map Char.toNat

/-- Carriage-return/line-feed, the HTTP line terminator. -/
def crlf : List Nat := s8 "\r\n"

/-- Position of the first window of `hay` equal to `delim`, mirroring the
Rust idiom `hay.windows(delim.len()).position(|w| w == delim)` used in
`utils.rs` and `client_socket.rs`.  Like `windows`, only full windows are
considered, so a `hay` shorter than `delim` yields `none`. -/
def findSub (delim : List Nat) : List Nat → Option Nat
  | [] => if delim.length = 0 then some 0 else none
  | h :: t =>
    if delim.isPrefixOf (h :: t) then some 0
    else (findSub delim t).map (· + 1)

/-- Embeds `bytes_contain` from `src/utils.rs`. -/
def bytes_contain (bytes : List Nat) (delim : List Nat) : Bool :=
  (findSub delim bytes).isSome

/-- Rust `str::contains` / substring containment at the byte level. -/
def containsSub (hay needle : List Nat) : Bool :=
  (findSub needle hay).isSome

/-- Rust `str::split_once(sep)` at the byte level for a one-byte separator:
split at the first occurrence, separator dropped. -/
def splitOnceByte (sep : Nat) : List Nat → Option (List Nat × List Nat)
  | [] => none
  | h :: t =>
    if h = sep then some ([], t)
    else (splitOnceByte sep t).map (fun p => (h :: p.1, p.2))

/-- Rust `str::split_once(delim)` for a multi-byte delimiter. -/
def splitOnceSub (delim : List Nat) (bytes : List Nat) : Option (List Nat × List Nat) :=
  (findSub delim bytes).map (fun i => (bytes.take i, bytes.drop (i + delim.length)))

/-- Rust `str::split(sep)` for a one-byte separator: splits at every
occurrence and keeps empty pieces, so the result is always nonempty. -/
def splitSep (sep : Nat) : List Nat → List (List Nat)
  | [] => [[]]
  | h :: t =>
    if h = sep then [] :: splitSep sep t
    else
      match splitSep sep t with
      | [] => [[h]]
      | tok :: rest => (h :: tok) :: rest

/-- Fuel-driven worker for `splitSub`; the fuel only needs to exceed the
number of delimiter occurrences, and `length + 1` always suffices. -/
def splitSubGo (delim : List Nat) : Nat → List Nat → List (List Nat)
  | 0, bytes => [bytes]
  | fuel + 1, bytes =>
    match splitOnceSub delim bytes with
    | none => [bytes]
    | some (a, b) => a :: splitSubGo delim fuel b

/-- Rust `str::split(delim)` for a multi-byte delimiter (used to split the
header block on CRLF), keeping empty pieces. -/
def splitSub (delim : List Nat) (bytes : List Nat) : List (List Nat) :=
  splitSubGo delim (bytes.length + 1) bytes

/-- Join a list of byte strings with a separator, as Rust `join`. -/
def joinSep (sep : List Nat) : List (List Nat) → List Nat
  | [] => []
  | [x] => x
  | x :: y :: rest => x ++ sep ++ joinSep sep (y :: rest)

/-- ASCII lower-casing of one byte; on ASCII input this is exactly what
Rust `str::to_lowercase` does byte-wise. -/
def lowerByte (b : Nat) : Nat := if 65 ≤ b ∧ b ≤ 90 then b + 32 else b

/-- ASCII lower-casing of a byte string. -/
def toLowerBytes (bytes : List Nat) : List Nat := bytes.map lowerByte

/-- ASCII whitespace, the bytes trimmed by Rust `str::trim*` on ASCII
input (Rust also trims non-ASCII Unicode whitespace; all inputs relevant
to the claims are ASCII). -/
def isWsByte (b : Nat) : Bool := b = 32 || b = 9 || b = 10 || b = 11 || b = 12 || b = 13

/-- Rust `str::trim_start` (ASCII). -/
def trimStart (bytes : List Nat) : List Nat := bytes.dropWhile isWsByte

/-- Rust `str::trim_end` (ASCII). -/
def trimEnd (bytes : List Nat) : List Nat := (bytes.reverse.dropWhile isWsByte).reverse

/-- Rust `str::trim` (ASCII). -/
def trimBytes (bytes : List Nat) : List Nat := trimStart (trimEnd bytes)

/-- Value of an ASCII digit in base 16, if any (Rust char digit logic
used by `from_str_radix`). -/
def hexDigitVal (b : Nat) : Option Nat :=
  if 48 ≤ b ∧ b ≤ 57 then some (b - 48)
  else if 97 ≤ b ∧ b ≤ 102 then some (b - 97 + 10)
  else if 65 ≤ b ∧ b ≤ 70 then some (b - 65 + 10)
  else none

/-- Value of an ASCII digit in base 10, if any. -/
def decDigitVal (b : Nat) : Option Nat :=
  if 48 ≤ b ∧ b ≤ 57 then some (b - 48) else none

/-- Accumulating digit fold shared by the two radix parsers. -/
def parseDigitsGo (digitVal : Nat → Option Nat) (radix : Nat) : List Nat → Nat → Option Nat
  | [], acc => some acc
  | b :: rest, acc =>
    match digitVal b with
    | none => none
    | some v => parseDigitsGo digitVal radix rest (acc * radix + v)

/-- Embeds Rust `usize::from_str_radix(s, radix)` on bytes: an optional
leading plus sign, then at least one digit; values above `usize::MAX`
(the target is 64-bit) are a `PosOverflow` error, i.e. `none`. -/
def fromStrRadix (digitVal : Nat → Option Nat) (radix : Nat) (bytes : List Nat) : Option Nat :=
  let digits := match bytes with
    | 43 :: rest => rest
    | other => other
  match digits with
  | [] => none
  | _ =>
    match parseDigitsGo digitVal radix digits 0 with
    | none => none
    | some v => if v < 2 ^ 64 then some v else none

/-- Rust `usize::from_str_radix(s, 16)` on bytes. -/
def fromStrRadix16 (bytes : List Nat) : Option Nat := fromStrRadix hexDigitVal 16 bytes

/-- Rust `usize::from_str_radix(s, 10)` on bytes. -/
def fromStrRadix10 (bytes : List Nat) : Option Nat := fromStrRadix decDigitVal 10 bytes

/-- Embeds `HttpMethod` from `src/http_method.rs`. -/
inductive HttpMethod where
  | ALL | GET | POST | PUT | DELETE | OPTIONS | HEAD | CONNECT | TRACE | PATCH | UPDATE
  deriving DecidableEq, Repr

/-- Embeds `parse_method` from `src/http_method.rs`. -/
def parse_method (method : List Nat) : Option HttpMethod :=
  if method = s8 "GET" then some .GET
  else if method = s8 "POST" then some .POST
  else if method = s8 "PUT" then some .PUT
  else if method = s8 "DELETE" then some .DELETE
  else if method = s8 "OPTIONS" then some .OPTIONS
  else if method = s8 "HEAD" then some .HEAD
  else if method = s8 "CONNECT" then some .CONNECT
  else if method = s8 "TRACE" then some .TRACE
  else if method = s8 "PATCH" then some .PATCH
  else if method = s8 "UPDATE" then some .UPDATE
  else none

/-- Embeds `HttpVersion` from `src/http_version.rs`. -/
inductive HttpVersion where
  | Http1_0 | Http1_1
  deriving DecidableEq, Repr

/-- Embeds `parse_http_version` from `src/http_version.rs`. -/
def parse_http_version (input : List Nat) : Option HttpVersion :=
  if input = s8 "HTTP/1.0" then some .Http1_0
  else if input = s8 "HTTP/1.1" then some .Http1_1
  else none

/-- Embeds `DuplicateMap` from `src/map.rs`. -/
inductive DuplicateMap where
  | single (v : List Nat)
  | list (vs : List (List Nat))
  deriving DecidableEq, Repr

/-- Embeds `DuplicateMap::as_slice` from `src/map.rs`. -/
def DuplicateMap.as_slice : DuplicateMap → List (List Nat)
  | .single v => [v]
  | .list vs => vs

/-- Embeds `Map<DuplicateMap>` from `src/map.rs`: an ordered association
list from byte-string keys to single-or-list values. -/
abbrev HMap := List (List Nat × DuplicateMap)

/-- Embeds `Map::has` from `src/map.rs`. -/
def mapHas (m : HMap) (key : List Nat) : Bool := m.any (fun e => e.1 = key)

/-- Embeds `Map::get` from `src/map.rs` (first entry with the key). -/
def mapGet (m : HMap) (key : List Nat) : Option DuplicateMap :=
  (m.find? (fun e => e.1 = key)).map (·.2)

/-- Embeds `Map::<DuplicateMap>::add` from `src/map.rs`: a second insert
promotes a single into a two-element list, later inserts append. -/
def mapAdd (key value : List Nat) : HMap → HMap
  | [] => [(key, .single value)]
  | (k, d) :: rest =>
    if k = key then
      (match d with
       | .single o => (k, .list [o, value])
       | .list items => (k, .list (items ++ [value]))) :: rest
    else (k, d) :: mapAdd key value rest

/-- Embeds `Map::add_require_single` from `src/map.rs`: any existing entry
under the key, single or list, makes the insert fail (`none`). -/
def mapAddRequireSingle (key value : List Nat) : HMap → Option HMap
  | [] => some [(key, .single value)]
  | (k, d) :: rest =>
    if k = key then none
    else ((mapAddRequireSingle key value rest).map (fun m => (k, d) :: m))

/-- Embeds `Map::get_require_single` from `src/map.rs`. -/
def mapGetRequireSingle (m : HMap) (key : List Nat) : Except Unit (Option (List Nat)) :=
  match mapGet m key with
  | some (.single v) => .ok (some v)
  | some (.list _) => .error ()
  | none => .ok none

/-- Embeds `Map::get_single` from `src/map.rs`. -/
def mapGetSingle (m : HMap) (key : List Nat) : Option (List Nat) :=
  match mapGet m key with
  | some (.single v) => some v
  | _ => none

/-- Embeds `Map<String>` from `src/map.rs` (used for path parameters);
its `add` simply pushes. -/
abbrev SMap := List (List Nat × List Nat)

/-- Embeds `RequestParsingError` from `src/request.rs`.  The
`io::Error` payload is reduced to its kind, which is how the source
compares such errors (`PartialEq` on `RequestParsingError`). -/
inductive IoKind where
  | invalidData | brokenPipe | timedOut | interrupted | otherKind
  deriving DecidableEq, Repr

inductive RequestParsingError where
  | unhandledRequest
  | invalidRequest
  | invalidHeader
  | invalidBody
  | payloadTooLarge
  | ioError (k : IoKind)
  | timeout
  | cancellation
  | unexpectedError
  deriving DecidableEq, Repr

/-- Embeds `DUPLICATABLE_HEADER_NAMES` from `src/request.rs`. -/
def DUPLICATABLE_HEADER_NAMES : List (List Nat) :=
  [s8 "set-cookie", s8 "warning", s8 "www-authenticate", s8 "proxy-authenticate",
   s8 "accept", s8 "via", s8 "accept-language", s8 "link", s8 "forwarded"]

/-- Embeds `header_can_be_duplicate` from `src/request.rs`. -/
def header_can_be_duplicate (name : List Nat) : Bool :=
  DUPLICATABLE_HEADER_NAMES.any (fun h => h = name)

/-- Embeds `is_tchar` from `src/request.rs` at the byte level (the source
works on `char`; every character tested by the claims is ASCII, where the
two coincide). -/
def is_tchar (c : Nat) : Bool :=
  (48 ≤ c && c ≤ 57) || (65 ≤ c && c ≤ 90) || (97 ≤ c && c ≤ 122) ||
  c = 33 || c = 35 || c = 36 || c = 37 || c = 38 || c = 39 || c = 42 ||
  c = 43 || c = 45 || c = 46 || c = 94 || c = 95 || c = 96 || c = 124 || c = 126

/-- Embeds `is_valid_header_name` from `src/request.rs` (ASCII scope: the
source additionally lets Unicode alphanumerics through
`char::is_alphanumeric`; on ASCII bytes that predicate coincides with
`is_ascii_alphanumeric`, which `is_tchar` already covers). -/
def is_valid_header_name (name : List Nat) : Bool :=
  name.all (fun c => (48 ≤ c && c ≤ 57) || (65 ≤ c && c ≤ 90) || (97 ≤ c && c ≤ 122) || is_tchar c)

/-- Embeds `is_valid_header_value` from `src/request.rs`: the source
iterates `value.bytes()` and accepts each byte `b` with
`b == 9 or (b >= 32 and b != 127)`. -/
def is_valid_header_value (value : List Nat) : Bool :=
  value.all (fun b => b = 9 || (32 ≤ b && b ≠ 127))

/-- Embeds `parse_http_request_line` from `src/request.rs`: split the
line on single spaces, require at least three tokens, a recognized
method in the first and a recognized version in the third. -/
def parse_http_request_line (line : List Nat) :
    Except RequestParsingError (HttpMethod × HttpVersion × List Nat) :=
  match splitSep 32 line with
  | t0 :: t1 :: t2 :: _ =>
    match parse_method t0 with
    | none => .error .unhandledRequest
    | some m =>
      match parse_http_version t2 with
      | none => .error .unhandledRequest
      | some v => .ok (m, v, t1)
  | _ => .error .unhandledRequest

/-- Embeds `parse_header_line` from `src/request.rs`: empty lines and
lines without a colon yield `none`; otherwise the name (before the first
colon, trailing whitespace trimmed, lower-cased) and the value (after it,
leading whitespace trimmed) are validated. -/
def parse_header_line (header : List Nat) :
    Except RequestParsingError (Option (List Nat × List Nat)) :=
  if header = [] then .ok none
  else
    match splitOnceByte 58 header with
    | none => .ok none
    | some (rawName, rawValue) =>
      let headerName := toLowerBytes (trimEnd rawName)
      let headerValue := trimStart rawValue
      if !is_valid_header_name headerName || !is_valid_header_value headerValue then
        .error .invalidHeader
      else .ok (some (headerName, headerValue))

/-- Worker for `parse_headers`, folding the header lines into the map. -/
def parseHeadersGo (acc : HMap) : List (List Nat) → Except RequestParsingError HMap
  | [] => .ok acc
  | header :: rest =>
    match parse_header_line header with
    | .error e => .error e
    | .ok (some (name, value)) =>
      if header_can_be_duplicate name then
        parseHeadersGo (mapAdd name value acc) rest
      else
        match mapAddRequireSingle name value acc with
        | some acc2 => parseHeadersGo acc2 rest
        | none => .error .invalidHeader
    | .ok none =>
      if header ≠ [] then .error .invalidHeader
      else parseHeadersGo acc rest

/-- Embeds `parse_headers` from `src/request.rs`. -/
def parse_headers (headers : List (List Nat)) : Except RequestParsingError HMap :=
  parseHeadersGo [] headers

/-- Embeds `parse_query_params` from `src/request.rs`: everything after
the first question mark, split on ampersands, each piece split on the
first equals sign (missing sign: empty value). -/
def parse_query_params (path : List Nat) : HMap :=
  match splitOnceByte 63 path with
  | none => []
  | some (_, queryString) =>
    (splitSep 38 queryString).foldl
      (fun acc param =>
        match splitOnceByte 61 param with
        | some (k, v) => mapAdd k v acc
        | none => mapAdd param [] acc)
      []

/-- Embeds `ReadError` from `src/client_socket.rs` (the `io::Error`
payload reduced to its kind, as the source's `PartialEq` does). -/
inductive ReadErr where
  | ioError (k : IoKind)
  | maxSizeExceeded
  | timeout
  | cancellation
  | unexpectedError
  deriving DecidableEq, Repr

/-- Result of running an embedded Rust computation: a value, the error
the source returns, a Rust panic (out-of-bounds slice or arithmetic
overflow), or exhausted fuel for a source loop with no termination
guarantee. -/
inductive RRes (ε α : Type) where
  | ok (a : α)
  | err (e : ε)
  | panicked
  | outOfFuel
  deriving DecidableEq, Repr

/-- Read side of a socket: the sequence of events successive raw reads
deliver.  An `Except.ok` segment is data handed to one `read_buffer`
call (a longer segment is consumed over several calls), an `Except.ok []`
or the end of the list is end-of-stream, and `Except.error` is a
timeout, cancellation or I/O failure surfaced by that call.  Every
schedule of a real peer is some such list. -/
abbrev Stream := List (Except ReadErr (List Nat))

/-- Embeds a single `read_buffer` call from `src/client_socket.rs` with
capacity `n`: at most `n` bytes of the next data segment are delivered
and the remainder is pushed back; an empty result means end-of-stream
(Rust `Ok(0)`). -/
def read_buffer (n : Nat) : Stream → Except ReadErr (List Nat) × Stream
  | [] => (.ok [], [])
  | .error e :: rest => (.error e, rest)
  | .ok seg :: rest =>
    let taken := seg.take n
    let rem := seg.drop n
    (.ok taken, if rem = [] then rest else .ok rem :: rest)

/-- Rust slice expression `xs[a..b]`: `none` models the bounds-check
panic when `b` exceeds the length (or `a > b`). -/
def sliceExtract (xs : List Nat) (a b : Nat) : Option (List Nat) :=
  if a ≤ b ∧ b ≤ xs.length then some ((xs.take b).drop a) else none

/-- Loop of `read_n` from `src/client_socket.rs`.  One fuel unit per
iteration; every iteration either finishes or grows the buffer, so fuel
`size + 1` always suffices (see `read_n`). -/
def readNGo (B size : Nat) : Nat → List Nat → Stream → RRes ReadErr (List Nat) × Stream
  | 0, _, s => (.outOfFuel, s)
  | fuel + 1, out, s =>
    let req := if size - out.length < B then size - out.length else B
    match read_buffer req s with
    | (.error e, s') => (.err e, s')
    | (.ok bs, s') =>
      if bs.length = 0 then (.ok out, s')
      else if size ≤ out.length + bs.length then (.ok (out ++ bs), s')
      else readNGo B size fuel (out ++ bs) s'

/-- Embeds `read_n` from `src/client_socket.rs`: accumulate exactly
`size` bytes, or fewer on end-of-stream (truncation tolerated). -/
def read_n (B size : Nat) (s : Stream) : RRes ReadErr (List Nat) × Stream :=
  readNGo B size (size + 1) [] s

/-- Loop of `read_until` from `src/client_socket.rs`.  The buffer grows
every continuing iteration and is bounded by `maxSize`, so fuel
`maxSize + 2` always suffices (see `read_until`). -/
def readUntilGo (B : Nat) (delim : List Nat) (maxSize : Nat) :
    Nat → List Nat → Stream → RRes ReadErr (List Nat × List Nat) × Stream
  | 0, _, s => (.outOfFuel, s)
  | fuel + 1, out, s =>
    let bufSize := if maxSize - out.length < B then maxSize - out.length else B
    match read_buffer bufSize s with
    | (.error e, s') => (.err e, s')
    | (.ok bs, s') =>
      if bs.length = 0 then (.ok (out, []), s')
      else
        let out2 := out ++ bs
        match findSub delim out2 with
        | some i =>
          (.ok (out2.take (i + delim.length), out2.drop (i + delim.length)), s')
        | none =>
          if maxSize ≤ out2.length then (.err .maxSizeExceeded, s')
          else readUntilGo B delim maxSize fuel out2 s'

/-- Embeds `read_until` from `src/client_socket.rs`: read until the
delimiter appears, returning the bytes up to and including it together
with the trailing bytes of the same read; end-of-stream before a match
yields the accumulated bytes with an empty tail. -/
def read_until (B : Nat) (delim : List Nat) (maxSize : Nat) (s : Stream) :
    RRes ReadErr (List Nat × List Nat) × Stream :=
  readUntilGo B delim maxSize (maxSize + 2) [] s

/-- Inner `while !bytes_contain(..)` loop of `read_chunked`
(`src/client_socket.rs` lines 153-163): keep reading five bytes until the
carry-over contains the size-line delimiter.  This loop genuinely
diverges when the stream hits end-of-stream first (each `read_n` then
returns zero bytes), which the fuel makes visible as `outOfFuel`. -/
def fillCarryGo (B : Nat) (csd : List Nat) (maxSize outLen : Nat) :
    Nat → List Nat → Stream → RRes ReadErr (List Nat) × Stream
  | 0, _, s => (.outOfFuel, s)
  | fuel + 1, ebo, s =>
    if bytes_contain ebo csd then (.ok ebo, s)
    else if maxSize < outLen + 5 + ebo.length then (.err .maxSizeExceeded, s)
    else
      match read_n B 5 s with
      | (.ok bs, s') => fillCarryGo B csd maxSize outLen fuel (ebo ++ bs) s'
      | (.err e, s') => (.err e, s')
      | (.panicked, s') => (.panicked, s')
      | (.outOfFuel, s') => (.outOfFuel, s')

/-- Chunk-size value extracted from a size line by `read_chunked`:
`String::from_utf8_lossy`, `trim`, `usize::from_str_radix(_, 16)`,
`unwrap_or(0)`.  A lossy-decoded replacement character is not a hex
digit, so non-ASCII bytes make the parse fail, hence yield 0, exactly as
rejecting them here does. -/
def chunkSizeOf (bytes : List Nat) : Nat :=
  (fromStrRadix16 (trimBytes bytes)).getD 0

/-- Outer loop of `read_chunked` from `src/client_socket.rs` (lines
145-210), one fuel unit per iteration.  Every Rust slice indexing is
modelled by `sliceExtract`, whose `none` (out of bounds) yields
`RRes.panicked`; the `chunk_size_bytes.len() - chunk_size_delim.len()`
subtraction underflows (debug panic, or wrap plus out-of-bounds slice in
release) when the size line is shorter than its delimiter, which is also
`RRes.panicked`. -/
def readChunkedGo (B : Nat) (csd cd : List Nat) (maxSize : Nat) :
    Nat → List Nat → List Nat → Stream → RRes ReadErr (List Nat) × Stream
  | 0, _, _, s => (.outOfFuel, s)
  | fuel + 1, outBuf, extraOut, s =>
    if maxSize ≤ outBuf.length then
      (.err .maxSizeExceeded, s)
    else
      let afterSizeLine :
          RRes ReadErr (List Nat × List Nat) × Stream :=
        if extraOut ≠ [] then
          match fillCarryGo B csd maxSize outBuf.length (fuel + 1) extraOut s with
          | (.ok ebo, s') =>
            match findSub csd ebo with
            | none => (.err .unexpectedError, s')
            | some i =>
              let idx := i + csd.length
              match sliceExtract ebo 0 idx, sliceExtract ebo idx ebo.length with
              | some csb, some extra => (.ok (csb, extra), s')
              | _, _ => (.panicked, s')
          | (.err e, s') => (.err e, s')
          | (.panicked, s') => (.panicked, s')
          | (.outOfFuel, s') => (.outOfFuel, s')
        else
          read_until B csd (maxSize - outBuf.length) s
      match afterSizeLine with
      | (.err e, s') => (.err e, s')
      | (.panicked, s') => (.panicked, s')
      | (.outOfFuel, s') => (.outOfFuel, s')
      | (.ok (csb, extra), s') =>
        if csb.length < csd.length then (.panicked, s')
        else
          let chunkSize := chunkSizeOf (csb.take (csb.length - csd.length))
          if chunkSize = 0 then
            if maxSize ≤ outBuf.length then (.err .maxSizeExceeded, s')
            else (.ok outBuf, s')
          else if maxSize < outBuf.length + chunkSize then
            let allowed := maxSize - outBuf.length
            match sliceExtract extra 0 allowed with
            | none => (.panicked, s')
            | some _ => (.err .maxSizeExceeded, s')
          else if chunkSize + cd.length ≤ extra.length then
            match sliceExtract extra 0 chunkSize,
                  sliceExtract extra (chunkSize + cd.length) extra.length with
            | some piece, some rest =>
              readChunkedGo B csd cd maxSize fuel (outBuf ++ piece) rest s'
            | _, _ => (.panicked, s')
          else
            let remainingSize := chunkSize + cd.length - extra.length
            match read_n B remainingSize s' with
            | (.ok chunkData, s2) =>
              match sliceExtract chunkData 0 chunkSize with
              | none => (.panicked, s2)
              | some piece =>
                readChunkedGo B csd cd maxSize fuel (outBuf ++ extra ++ piece) [] s2
            | (.err e, s2) => (.err e, s2)
            | (.panicked, s2) => (.panicked, s2)
            | (.outOfFuel, s2) => (.outOfFuel, s2)

/-- Embeds `read_chunked` from `src/client_socket.rs`: decode an
HTTP/1.1 chunked body, seeded with carry-over bytes, capped at
`maxSize` decoded bytes. -/
def read_chunked (B fuel : Nat) (extraBytes csd cd : List Nat) (maxSize : Nat)
    (s : Stream) : RRes ReadErr (List Nat) × Stream :=
  readChunkedGo B csd cd maxSize fuel [] extraBytes s

/-- Number of bytes the stream delivers before its first stop event
(end of list, empty segment, or error). -/
def avail : Stream → Nat
  | [] => 0
  | .error _ :: _ => 0
  | .ok [] :: _ => 0
  | .ok (b :: seg) :: rest => (b :: seg).length + avail rest

/-- The bytes the stream delivers before its first stop event. -/
def streamData : Stream → List Nat
  | [] => []
  | .error _ :: _ => []
  | .ok [] :: _ => []
  | .ok (b :: seg) :: rest => (b :: seg) ++ streamData rest

/-- Embeds `parse_body_from_content_length` from `src/request.rs`: seed
the body with the carry-over bytes and read only the missing remainder;
a carry-over already covering the length is returned whole. -/
def parse_body_from_content_length (B contentLength : Nat) (extraBytes : List Nat)
    (maxBody : Nat) (s : Stream) : RRes ReadErr (List Nat) × Stream :=
  if maxBody < contentLength then (.err .maxSizeExceeded, s)
  else if extraBytes.length < contentLength then
    match read_n B (contentLength - extraBytes.length) s with
    | (.ok bs, s') => (.ok (extraBytes ++ bs), s')
    | (.err e, s') => (.err e, s')
    | (.panicked, s') => (.panicked, s')
    | (.outOfFuel, s') => (.outOfFuel, s')
  else (.ok extraBytes, s)

/-- Embeds `parse_chunked_body` from `src/request.rs`. -/
def parse_chunked_body (B fuel : Nat) (extraBytes : List Nat) (maxBody : Nat)
    (s : Stream) : RRes ReadErr (List Nat) × Stream :=
  read_chunked B fuel extraBytes crlf crlf maxBody s

/-- Mapping of reader errors to parser errors at the end of `parse_body`
in `src/request.rs`. -/
def mapReadErr : ReadErr → RequestParsingError
  | .maxSizeExceeded => .payloadTooLarge
  | .ioError k => .ioError k
  | .timeout => .timeout
  | .cancellation => .cancellation
  | .unexpectedError => .invalidBody

/-- Lift a read-layer result to the parse layer. -/
def liftRead : RRes ReadErr (List Nat) × Stream → RRes RequestParsingError (List Nat) × Stream
  | (.ok v, s) => (.ok v, s)
  | (.err e, s) => (.err (mapReadErr e), s)
  | (.panicked, s) => (.panicked, s)
  | (.outOfFuel, s) => (.outOfFuel, s)

/-- Embeds `parse_body` from `src/request.rs`: frame by a single
`content-length` (decimal; failure to parse is `InvalidHeader`, a value
over the cap is `PayloadTooLarge`), else by `transfer-encoding` equal to
`chunked`, else the body is empty. -/
def parse_body (B fuel : Nat) (headerMap : HMap) (extraBytes : List Nat)
    (maxBody : Nat) (s : Stream) : RRes RequestParsingError (List Nat) × Stream :=
  match mapGetRequireSingle headerMap (s8 "content-length") with
  | .ok (some cl) =>
    match fromStrRadix10 cl with
    | none => (.err .invalidHeader, s)
    | some contentLength =>
      if maxBody < contentLength then (.err .payloadTooLarge, s)
      else liftRead (parse_body_from_content_length B contentLength extraBytes maxBody s)
  | _ =>
    match mapGetRequireSingle headerMap (s8 "transfer-encoding") with
    | .ok (some te) =>
      if te ≠ s8 "chunked" then (.err .invalidHeader, s)
      else liftRead (parse_chunked_body B fuel extraBytes maxBody s)
    | _ => (.ok [], s)

/-- State machine for UTF-8 validation: `pending` lists the admissible
ranges for the upcoming continuation bytes. -/
def utf8Go (pending : List (Nat × Nat)) : List Nat → Bool
  | [] => pending.isEmpty
  | b :: rest =>
    match pending with
    | (lo, hi) :: ps => lo ≤ b && b ≤ hi && utf8Go ps rest
    | [] =>
      if b ≤ 0x7F then utf8Go [] rest
      else if 0xC2 ≤ b && b ≤ 0xDF then utf8Go [(0x80, 0xBF)] rest
      else if b = 0xE0 then utf8Go [(0xA0, 0xBF), (0x80, 0xBF)] rest
      else if 0xE1 ≤ b && b ≤ 0xEC then utf8Go [(0x80, 0xBF), (0x80, 0xBF)] rest
      else if b = 0xED then utf8Go [(0x80, 0x9F), (0x80, 0xBF)] rest
      else if 0xEE ≤ b && b ≤ 0xEF then utf8Go [(0x80, 0xBF), (0x80, 0xBF)] rest
      else if b = 0xF0 then utf8Go [(0x90, 0xBF), (0x80, 0xBF), (0x80, 0xBF)] rest
      else if 0xF1 ≤ b && b ≤ 0xF3 then utf8Go [(0x80, 0xBF), (0x80, 0xBF), (0x80, 0xBF)] rest
      else if b = 0xF4 then utf8Go [(0x80, 0x8F), (0x80, 0xBF), (0x80, 0xBF)] rest
      else false

/-- Validity check performed by Rust `String::from_utf8` in
`parse_request` (RFC 3629 well-formedness). -/
def validUtf8 (bytes : List Nat) : Bool := utf8Go [] bytes

/-- Embeds `MimeType` from `src/mime_type.rs` (name plus the binary flag
that gates gzip). -/
structure MimeType where
  name : List Nat
  is_binary : Bool
  deriving DecidableEq, Repr

/-- Embeds `TEXT_PLAIN` from `src/mime_type.rs`, the content type of
`status` and `text` responses (the only constructors the embedded server
paths use). -/
def TEXT_PLAIN : MimeType := ⟨s8 "text/plain", false⟩

/-- Embeds `APPLICATION_OCTET_STREAM` from `src/mime_type.rs`, a binary
content type. -/
def APPLICATION_OCTET_STREAM : MimeType := ⟨s8 "application/octet-stream", true⟩

/-- Embeds `StatusCode` from `src/status_code.rs`. -/
structure StatusCode where
  code : Nat
  reason : List Nat
  deriving DecidableEq, Repr

/-- Embeds the `ALL` table from `src/status_code.rs`. -/
def statusCodeALL : List StatusCode :=
  [⟨100, s8 "Continue"⟩, ⟨101, s8 "Switching Protocols"⟩, ⟨102, s8 "Processing"⟩,
   ⟨103, s8 "Early Hints"⟩,
   ⟨200, s8 "OK"⟩, ⟨201, s8 "Created"⟩, ⟨202, s8 "Accepted"⟩,
   ⟨203, s8 "Non-Authoritative Information"⟩, ⟨204, s8 "No Content"⟩,
   ⟨205, s8 "Reset Content"⟩, ⟨206, s8 "Partial Content"⟩, ⟨207, s8 "Multi-Status"⟩,
   ⟨208, s8 "Already Reported"⟩, ⟨226, s8 "IM Used"⟩,
   ⟨300, s8 "Multiple Choices"⟩, ⟨301, s8 "Moved Permanently"⟩, ⟨302, s8 "Found"⟩,
   ⟨303, s8 "See Other"⟩, ⟨304, s8 "Not Modified"⟩, ⟨305, s8 "Use Proxy"⟩,
   ⟨307, s8 "Temporary Redirect"⟩, ⟨308, s8 "Permanent Redirect"⟩,
   ⟨400, s8 "Bad Request"⟩, ⟨401, s8 "Unauthorized"⟩, ⟨402, s8 "Payment Required"⟩,
   ⟨403, s8 "Forbidden"⟩, ⟨404, s8 "Not Found"⟩, ⟨405, s8 "Method Not Allowed"⟩,
   ⟨406, s8 "Not Acceptable"⟩, ⟨407, s8 "Proxy Authentication Required"⟩,
   ⟨408, s8 "Request Timeout"⟩, ⟨409, s8 "Conflict"⟩, ⟨410, s8 "Gone"⟩,
   ⟨411, s8 "Length Required"⟩, ⟨412, s8 "Precondition Failed"⟩,
   ⟨413, s8 "Payload Too Large"⟩, ⟨414, s8 "URI Too Long"⟩,
   ⟨415, s8 "Unsupported Media Type"⟩, ⟨416, s8 "Range Not Satisfiable"⟩,
   ⟨417, s8 "Expectation Failed"⟩, ⟨418, s8 "I'm a teapot"⟩,
   ⟨421, s8 "Misdirected Request"⟩, ⟨422, s8 "Unprocessable Content"⟩,
   ⟨423, s8 "Locked"⟩, ⟨424, s8 "Failed Dependency"⟩, ⟨425, s8 "Too Early"⟩,
   ⟨426, s8 "Upgrade Required"⟩, ⟨428, s8 "Precondition Required"⟩,
   ⟨429, s8 "Too Many Requests"⟩, ⟨431, s8 "Request Header Fields Too Large"⟩,
   ⟨451, s8 "Unavailable For Legal Reasons"⟩,
   ⟨500, s8 "Internal Server Error"⟩, ⟨501, s8 "Not Implemented"⟩,
   ⟨502, s8 "Bad Gateway"⟩, ⟨503, s8 "Service Unavailable"⟩,
   ⟨504, s8 "Gateway Timeout"⟩, ⟨505, s8 "HTTP Version Not Supported"⟩,
   ⟨506, s8 "Variant Also Negotiates"⟩, ⟨507, s8 "Insufficient Storage"⟩,
   ⟨508, s8 "Loop Detected"⟩, ⟨510, s8 "Not Extended"⟩,
   ⟨511, s8 "Network Authentication Required"⟩]

/-- Embeds `StatusCode::from_u16` from `src/status_code.rs`. -/
def statusFromU16 (code : Nat) : Option StatusCode :=
  statusCodeALL.find? (fun sc => sc.code = code)

/-- Embeds `impl Into<StatusCode> for u16` from `src/response.rs`
(unknown codes get the reason `Unknown`). -/
def intoStatusCode (code : Nat) : StatusCode :=
  (statusFromU16 code).getD ⟨code, s8 "Unknown"⟩

/-- Embeds `Response` from `src/response.rs`. -/
structure Response where
  content_type : MimeType
  bytes : List Nat
  status_code : StatusCode
  headers : List (List Nat × List Nat)
  deriving DecidableEq, Repr

/-- Embeds the free function `status` from `src/response.rs`.  The
source also accepts a ready `StatusCode` through `Into`; on the codes
the server core passes (`NOT_FOUND`, `METHOD_NOT_ALLOWED`,
`PAYLOAD_TOO_LARGE`) that is the same as the table lookup performed
here. -/
def status (code : Nat) : Response :=
  { content_type := TEXT_PLAIN, bytes := [], status_code := intoStatusCode code, headers := [] }

/-- Embeds `Response::header` from `src/response.rs`. -/
def Response.header (res : Response) (key value : List Nat) : Response :=
  { res with headers := res.headers ++ [(key, value)] }

/-- Embeds the free function `text` from `src/response.rs`. -/
def text (s : List Nat) : Response :=
  { content_type := TEXT_PLAIN, bytes := s, status_code := ⟨200, s8 "OK"⟩, headers := [] }

/-- Embeds `Request` from `src/request.rs`. -/
structure Request where
  method : HttpMethod
  http_version : HttpVersion
  body : List Nat
  path : List Nat
  query_params : HMap
  headers : HMap
  path_params : SMap
  deriving Repr

/-- Embeds `impl Default for Request` from `src/request.rs`. -/
def defaultRequest : Request :=
  { method := .GET, http_version := .Http1_1, body := [], path := [],
    query_params := [], headers := [], path_params := [] }

/-- Per-connection socket: the pending read events and the bytes written
so far.  Writes are modelled as always succeeding; none of the claims
under verification concerns write-failure paths. -/
structure Conn where
  stream : Stream
  written : List Nat
  deriving Repr

/-- Embeds `write_all` on the connection (appends to the write log). -/
def writeAll (data : List Nat) (conn : Conn) : Conn :=
  { conn with written := conn.written ++ data }

/-- Embeds `parse_request` from `src/request.rs`: decode the header
bytes as UTF-8, split off and parse the request line, parse the header
block, enforce the HTTP/1.1 `host` rule and the `content-length` /
`transfer-encoding` exclusivity, send `100 Continue` when expected,
read the body, and collect the query parameters. -/
def parse_request (B fuel : Nat) (requestHeaders extraBytes : List Nat) (maxBody : Nat)
    (conn : Conn) : RRes RequestParsingError Request × Conn :=
  if !(validUtf8 requestHeaders) then (.err .invalidRequest, conn)
  else
    match splitOnceSub crlf requestHeaders with
    | none => (.err .invalidRequest, conn)
    | some (headerLine, headersRest) =>
      match parse_http_request_line headerLine with
      | .error e => (.err e, conn)
      | .ok (httpMethod, httpVersion, path) =>
        match parse_headers (splitSub crlf headersRest) with
        | .error e => (.err e, conn)
        | .ok headerMap =>
          if httpVersion = .Http1_1 && !(mapHas headerMap (s8 "host")) then
            (.err .invalidRequest, conn)
          else if mapHas headerMap (s8 "content-length") &&
                  mapHas headerMap (s8 "transfer-encoding") then
            (.err .invalidRequest, conn)
          else
            let needsContinue := ((mapGetSingle headerMap (s8 "expect")).map
              (fun e => containsSub (toLowerBytes e) (s8 "100-continue"))).getD false
            let conn1 := if needsContinue
              then writeAll (s8 "HTTP/1.1 100 Continue\r\n\r\n") conn else conn
            match parse_body B fuel headerMap extraBytes maxBody conn1.stream with
            | (.ok body, s') =>
              (.ok { method := httpMethod, http_version := httpVersion, body := body,
                     path := path, query_params := parse_query_params path,
                     headers := headerMap, path_params := [] },
               { conn1 with stream := s' })
            | (.err e, s') => (.err e, { conn1 with stream := s' })
            | (.panicked, s') => (.panicked, { conn1 with stream := s' })
            | (.outOfFuel, s') => (.outOfFuel, { conn1 with stream := s' })

/-- Embeds `HttpListener` from `src/http_server_trait.rs`. -/
structure HttpListener where
  path : List Nat
  method : HttpMethod
  callback : Request → Response

/-- Embeds `path_matches` from `src/http_server_trait.rs`: a pattern
containing a colon matches segment-wise (parameter segments match
anything); otherwise plain equality. -/
def path_matches (l : HttpListener) (path : List Nat) : Bool :=
  if containsSub l.path (s8 ":") then
    let registeredParts := splitSep 47 l.path
    let pathParts := splitSep 47 path
    if registeredParts.length ≠ pathParts.length then false
    else (registeredParts.zip pathParts).all
      (fun rp => (s8 ":").isPrefixOf rp.1 || rp.1 = rp.2)
  else l.path = path

/-- Embeds `method_matches` from `src/http_server_trait.rs`. -/
def method_matches (l : HttpListener) (method : HttpMethod) : Bool :=
  l.method = method || l.method = .ALL

/-- Embeds `get_path_params` from `src/http_server_trait.rs`. -/
def get_path_params (l : HttpListener) (path : List Nat) : SMap :=
  ((splitSep 47 l.path).zip (splitSep 47 path)).foldl
    (fun acc rp =>
      if (s8 ":").isPrefixOf rp.1 then acc ++ [(rp.1.dropWhile (· = 58), rp.2)]
      else acc)
    []

/-- Decimal rendering of a number, as Rust `format` does. -/
def natToDec (n : Nat) : List Nat := s8 (Nat.repr n)

/-- Upper-case hexadecimal digit. -/
def hexUpperDigit (d : Nat) : Nat := if d < 10 then 48 + d else 55 + d

/-- Fuel-driven worker for `natToHex`. -/
def natToHexGo : Nat → Nat → List Nat
  | 0, _ => []
  | fuel + 1, n =>
    if n < 16 then [hexUpperDigit n]
    else natToHexGo fuel (n / 16) ++ [hexUpperDigit (n % 16)]

/-- Upper-case hexadecimal rendering, Rust `format` with the X flag
(used for chunk sizes in `send_response`). -/
def natToHex (n : Nat) : List Nat := natToHexGo (n + 1) n

/-- Condition of the `Connection: close` header in `send_response`
(`src/http_server.rs` lines 108-114): the request's single-valued
`connection` header lower-cases to `close`. -/
def connectionCloseRequested (req : Request) : Bool :=
  ((mapGetSingle req.headers (s8 "connection")).map
    (fun c => decide (toLowerBytes c = s8 "close"))).getD false

/-- Condition of the gzip branch in `send_response`
(`src/http_server.rs` lines 116-120): the request's single-valued
`accept-encoding` header contains the substring `gzip` — note the
source performs a case-sensitive `contains` here. -/
def acceptsGzipHeader (req : Request) : Bool :=
  ((mapGetSingle req.headers (s8 "accept-encoding")).map
    (fun e => containsSub e (s8 "gzip"))).getD false

/-- Full gzip condition of `send_response`: header accepted and content
type not binary. -/
def gzipApplies (req : Request) (res : Response) : Bool :=
  acceptsGzipHeader req && !res.content_type.is_binary

/-- Body bytes `send_response` actually emits: compressed exactly when
the gzip condition holds.  The external gzip primitive (`flate2` behind
`gzip_compress` in `src/utils.rs`, out of scope per the spec) is the
parameter `gzipFn`. -/
def responseOutBytes (gzipFn : List Nat → List Nat) (req : Request) (res : Response) :
    List Nat := if gzipApplies req res then gzipFn res.bytes else res.bytes

/-- Custom header line emitted by `send_response` for one key/value
pair of `Response::headers` (Rust `format` of key, colon-space,
value). -/
def headerLineOf (kv : List Nat × List Nat) : List Nat :=
  kv.1 ++ s8 ": " ++ kv.2

/-- Header lines assembled by `send_response` (`src/http_server.rs`
lines 103-138), in emission order; each element corresponds to one
`push_str` of a CRLF-terminated piece, and the serialized header section
is their CRLF-join followed by the blank line (see `send_response`). -/
def sendResponseLines (gzipFn : List Nat → List Nat) (req : Request) (res : Response) :
    List (List Nat) :=
  let statusLine := s8 "HTTP/1.1 " ++ natToDec res.status_code.code ++ s8 " " ++
    res.status_code.reason
  let closeLines := if connectionCloseRequested req then [s8 "Connection: close"] else []
  let gzLines := if gzipApplies req res then [s8 "Content-Encoding: gzip"] else []
  let outBytes := responseOutBytes gzipFn req res
  let ctLine := s8 "Content-Type: " ++ res.content_type.name
  let clLine := s8 "Content-Length: " ++ natToDec outBytes.length
  let teLines := if 8192 < outBytes.length then [s8 "Transfer-Encoding: chunked"] else []
  let customLines := res.headers.map headerLineOf
  [statusLine] ++ closeLines ++ gzLines ++ [ctLine, clLine] ++ teLines ++ customLines

/-- Fuel-driven worker for the chunked emission loop of `send_response`
(8192-byte slices, each preceded by its upper-case hex length). -/
def emitChunksGo : Nat → List Nat → List Nat
  | 0, _ => []
  | fuel + 1, bytes =>
    if bytes = [] then []
    else
      let chunk := bytes.take 8192
      natToHex chunk.length ++ crlf ++ chunk ++ crlf ++ emitChunksGo fuel (bytes.drop 8192)

/-- Chunked body emission of `send_response`, including the terminating
zero chunk. -/
def emitChunks (bytes : List Nat) : List Nat :=
  emitChunksGo (bytes.length + 1) bytes ++ s8 "0\r\n\r\n"

/-- Embeds `send_response` from `src/http_server.rs`: the bytes written
to the client for a request/response pair. -/
def send_response (gzipFn : List Nat → List Nat) (req : Request) (res : Response)
    (conn : Conn) : Conn :=
  let headerBytes := ((sendResponseLines gzipFn req res).map (· ++ crlf)).flatten ++ crlf
  let outBytes := responseOutBytes gzipFn req res
  if 8192 < outBytes.length then
    writeAll (headerBytes ++ emitChunks outBytes) conn
  else
    writeAll (headerBytes ++ outBytes) conn

/-- Embeds `send_simple_response` from `src/http_server.rs`. -/
def send_simple_response (res : Response) (conn : Conn) : Conn :=
  writeAll
    (s8 "HTTP/1.1 " ++ natToDec res.status_code.code ++ s8 " " ++ res.status_code.reason ++
      crlf ++ s8 "Content-Length: " ++ natToDec res.bytes.length ++ crlf ++ crlf ++ res.bytes)
    conn

/-- Method list the source substitutes when a matching route is
registered for `ALL` (`src/http_server.rs` lines 228-230). -/
def sevenMethods : List (List Nat) :=
  [s8 "GET", s8 "POST", s8 "PUT", s8 "DELETE", s8 "PATCH", s8 "OPTIONS", s8 "HEAD"]

/-- Method names collectable by the OPTIONS loop
(`src/http_server.rs` lines 233-242); `ALL` is handled separately and
`CONNECT`, `TRACE`, `UPDATE` hit the `continue` arm. -/
def methodStr : HttpMethod → Option (List Nat)
  | .GET => some (s8 "GET")
  | .POST => some (s8 "POST")
  | .PUT => some (s8 "PUT")
  | .DELETE => some (s8 "DELETE")
  | .PATCH => some (s8 "PATCH")
  | .HEAD => some (s8 "HEAD")
  | .OPTIONS => some (s8 "OPTIONS")
  | _ => none

/-- Collection loop of the OPTIONS branch of `process_request`: gather
the distinct method names of routes matching the path; the first
matching `ALL` route replaces the set with `sevenMethods` and stops the
loop. -/
def collectAllowedGo (path : List Nat) : List HttpListener → List (List Nat) → List (List Nat)
  | [], acc => acc
  | l :: rest, acc =>
    if path_matches l path then
      if l.method = .ALL then sevenMethods
      else
        match methodStr l.method with
        | none => collectAllowedGo path rest acc
        | some m =>
          if acc.contains m then collectAllowedGo path rest acc
          else collectAllowedGo path rest (acc ++ [m])
    else collectAllowedGo path rest acc

/-- Allowed-method set computed by the OPTIONS branch. -/
def collectAllowed (cbs : List HttpListener) (path : List Nat) : List (List Nat) :=
  collectAllowedGo path cbs []

/-- Byte-lexicographic order on byte strings; this is exactly the `Ord`
instance Rust sorts string slices by. -/
def lexLe : List Nat → List Nat → Bool
  | [], _ => true
  | _ :: _, [] => false
  | a :: xs, b :: ys => if a < b then true else if b < a then false else lexLe xs ys

/-- Insertion into a `lexLe`-sorted list. -/
def insertSorted (x : List Nat) : List (List Nat) → List (List Nat)
  | [] => [x]
  | y :: rest => if lexLe x y then x :: y :: rest else y :: insertSorted x rest

/-- Insertion sort by `lexLe`, embedding `Vec::sort` in the OPTIONS
branch: on the duplicate-free method lists sorted there, the sorted
permutation is unique, so any correct sort produces this list. -/
def sortStrs : List (List Nat) → List (List Nat)
  | [] => []
  | x :: rest => insertSorted x (sortStrs rest)

/-- Result of `process_request`: the `Ok` carries the should-close flag,
`ioErr` is the `Err` return. -/
inductive ProcResult where
  | ok (shouldClose : Bool)
  | ioErr (k : IoKind)
  | panicked
  | outOfFuel
  deriving DecidableEq, Repr

/-- Dispatch loop of `process_request` (`src/http_server.rs` lines
264-291): first route matching path and method wins; returns the `sent`
and `found_path` flags with the connection. -/
def dispatchGo (gzipFn : List Nat → List Nat) (req : Request) :
    List HttpListener → Bool → Conn → Bool × Bool × Conn
  | [], foundPath, conn => (false, foundPath, conn)
  | l :: rest, foundPath, conn =>
    let foundPath2 := foundPath || path_matches l req.path
    if path_matches l req.path && method_matches l req.method then
      let req2 := { req with path_params := get_path_params l req.path }
      let keptRequest := { defaultRequest with headers := req.headers }
      let res := l.callback req2
      (true, foundPath2, send_response gzipFn keptRequest res conn)
    else dispatchGo gzipFn req rest foundPath2 conn

/-- Embeds `process_request` from `src/http_server.rs`: parse the
request, apply the absolute-form path rewrite, serve the OPTIONS
enumeration or dispatch to the routes, and map parse errors to 400/413
responses or connection outcomes. -/
def process_request (gzipFn : List Nat → List Nat) (B fuel : Nat)
    (request extraBodyBytes : List Nat) (cbs : List HttpListener) (maxBody : Nat)
    (conn : Conn) : ProcResult × Conn :=
  match parse_request B fuel request extraBodyBytes maxBody conn with
  | (.ok req0, conn1) =>
    let req1 := if containsSub req0.path (s8 "http")
      then { req0 with path := joinSep (s8 "/") ((splitSep 47 req0.path).drop 3) }
      else req0
    let connectionClose := connectionCloseRequested req1
    if req1.method = .OPTIONS then
      let allowedMethods := collectAllowed cbs req1.path
      if allowedMethods ≠ [] then
        let withOpts := if allowedMethods.contains (s8 "OPTIONS") then allowedMethods
          else allowedMethods ++ [s8 "OPTIONS"]
        let allowHeader := joinSep (s8 ", ") (sortStrs withOpts)
        let res := (status 200).header (s8 "Allow") allowHeader
        (.ok connectionClose, send_response gzipFn req1 res conn1)
      else
        (.ok connectionClose, send_simple_response (status 404) conn1)
    else
      match dispatchGo gzipFn req1 cbs false conn1 with
      | (sent, foundPath, conn2) =>
        let conn3 :=
          if !sent && !foundPath then send_simple_response (status 404) conn2
          else if !sent && foundPath then send_simple_response (status 405) conn2
          else conn2
        (.ok connectionClose, conn3)
  | (.err e, conn1) =>
    match e with
    | .invalidBody => (.ok false, send_simple_response (status 400) conn1)
    | .invalidHeader => (.ok false, send_simple_response (status 400) conn1)
    | .invalidRequest => (.ok false, send_simple_response (status 400) conn1)
    | .unhandledRequest => (.ok false, send_simple_response (status 400) conn1)
    | .payloadTooLarge => (.ok false, send_simple_response (status 413) conn1)
    | .cancellation => (.ok true, conn1)
    | .ioError k => (.ioErr k, conn1)
    | .timeout => (.ok true, conn1)
    | .unexpectedError => (.ok true, conn1)
  | (.panicked, conn1) => (.panicked, conn1)
  | (.outOfFuel, conn1) => (.outOfFuel, conn1)

/-- Result of `handle_connection` (`io::Result<()>` plus the model's
panic and fuel outcomes). -/
inductive DriverResult where
  | okUnit
  | ioErr (k : IoKind)
  | panicked
  | outOfFuel
  deriving DecidableEq, Repr

/-- Keep-alive loop of `handle_connection` from `src/http_server.rs`
(lines 342-404), one fuel unit per served request.  The match arms are
in source order: the no-terminator guard precedes the emptiness guard,
so an empty header read takes the error arm. -/
def handleConnectionGo (gzipFn : List Nat → List Nat) (B bodyFuel : Nat)
    (cbs : List HttpListener) (headerMax maxBody : Nat) :
    Nat → Conn → DriverResult × Conn
  | 0, conn => (.outOfFuel, conn)
  | fuel + 1, conn =>
    match read_until B (s8 "\r\n\r\n") headerMax conn.stream with
    | (.ok (request, extraBytes), s') =>
      let conn1 : Conn := { conn with stream := s' }
      if !(bytes_contain request (s8 "\r\n\r\n")) then (.ioErr .invalidData, conn1)
      else if request = [] then (.okUnit, conn1)
      else
        match process_request gzipFn B bodyFuel request extraBytes cbs maxBody conn1 with
        | (.ok shouldClose, conn2) =>
          if shouldClose then (.okUnit, conn2)
          else handleConnectionGo gzipFn B bodyFuel cbs headerMax maxBody fuel conn2
        | (.ioErr k, conn2) => (.ioErr k, conn2)
        | (.panicked, conn2) => (.panicked, conn2)
        | (.outOfFuel, conn2) => (.outOfFuel, conn2)
    | (.err .cancellation, s') => (.okUnit, { conn with stream := s' })
    | (.err .timeout, s') => (.okUnit, { conn with stream := s' })
    | (.err .maxSizeExceeded, s') =>
      handleConnectionGo gzipFn B bodyFuel cbs headerMax maxBody fuel
        (send_simple_response (status 413) { conn with stream := s' })
    | (.err (.ioError k), s') => (.ioErr k, { conn with stream := s' })
    | (.err .unexpectedError, s') => (.okUnit, { conn with stream := s' })
    | (.panicked, s') => (.panicked, { conn with stream := s' })
    | (.outOfFuel, s') => (.outOfFuel, { conn with stream := s' })

/-- Embeds `handle_connection` from `src/http_server.rs`. -/
def handle_connection (gzipFn : List Nat → List Nat) (B bodyFuel fuel : Nat)
    (cbs : List HttpListener) (headerMax maxBody : Nat) (conn : Conn) :
    DriverResult × Conn :=
  handleConnectionGo gzipFn B bodyFuel cbs headerMax maxBody fuel conn

/-- Values stored under a key, flattened as `as_slice` renders them
(used to state the duplicate-accumulation behavior of the header map). -/
def headerValues (m : HMap) (key : List Nat) : List (List Nat) :=
  match mapGet m key with
  | some d => d.as_slice
  | none => []

section HelperLemmas

/-- A successful `findSub` position leaves room for the whole pattern. -/
theorem findSub_bound (delim : List Nat) :
    ∀ hay i, findSub delim hay = some i → i + delim.length ≤ hay.length := by
  intro hay
  induction hay with
  | nil =>
    intro i h
    by_cases hd : delim.length = 0
    · simp [findSub, hd] at h
      omega
    · simp [findSub, hd] at h
  | cons b t ih =>
    intro i h
    by_cases hpre : delim.isPrefixOf (b :: t)
    · simp [findSub, hpre] at h
      have hle := (List.isPrefixOf_iff_prefix.mp hpre).length_le
      simp only [List.length_cons] at hle ⊢
      omega
    · simp [findSub, hpre] at h
      obtain ⟨j, hj, hij⟩ := h
      have := ih j hj
      simp only [List.length_cons]
      omega

/-- A list whose element at some position differs from the head list of
an append cannot equal it. -/
theorem append_ne_of_getElem (l x m : List Nat) (i : Nat) (hi : i < l.length)
    (h : l[i]? ≠ m[i]?) : l ++ x ≠ m := by
  intro he
  apply h
  have h2 : (l ++ x)[i]? = l[i]? := List.getElem?_append_left hi
  rw [← h2, he]

/-- A pattern that disagrees with the head list of an append at some
position cannot be its prefix. -/
theorem not_isPrefixOf_append (p l x : List Nat) (i : Nat) (hp : i < p.length)
    (hl : i < l.length) (h : p[i]? ≠ l[i]?) :
    p.isPrefixOf (l ++ x) = false := by
  rw [Bool.eq_false_iff]
  intro hc
  obtain ⟨t, ht⟩ := List.isPrefixOf_iff_prefix.mp hc
  apply h
  have h1 : (p ++ t)[i]? = p[i]? := List.getElem?_append_left hp
  have h2 : (l ++ x)[i]? = l[i]? := List.getElem?_append_left hl
  rw [← h1, ht, h2]

end HelperLemmas

/-- Claim C10 (code bug): `read_chunked` is claimed total and
panic-free on every input byte stream, but the code panics.  First
conjunct: a stream that is at end before any chunk arrives makes
`read_until` return bytes without the size-line delimiter, and
`chunk_size_bytes[..len - delim.len()]` (line 182 of
`src/client_socket.rs`) underflows/indexes out of bounds.  Second
conjunct: a size line delivered together with only part of its chunk
makes `read_n` return fewer than `chunk_size` bytes, and
`chunk_data[0..chunk_size]` (line 206) indexes out of bounds. -/
theorem C10_read_chunked_panics_bug :
    (read_chunked 8192 5 [] crlf crlf 10485760 []).1 = .panicked ∧
    (read_chunked 8192 5 [] crlf crlf 10485760
      [.ok (s8 "5\r\nABCD"), .ok (s8 "E\r\n")]).1 = .panicked := by
  constructor
  · rfl
  · rfl

/-- Claim C5 (code bug): on a header-phase read that yields empty bytes
the driver is claimed to close cleanly with success, but the
no-terminator arm at line 350 of `src/http_server.rs` precedes the
emptiness arm at line 356, so the empty result takes the error arm and
`handle_connection` returns an `InvalidData` I/O error (the clean-close
arm is unreachable); nothing is written either way.  The second
conjunct checks the non-empty-without-terminator half of the claim,
which does hold: nothing is emitted and the connection is closed (with
an error return). -/
theorem C5_empty_read_close_bug :
    ((handle_connection (fun b => b) 8192 10 5 [] 8192 10485760 ⟨[], []⟩).1 =
        .ioErr .invalidData ∧
      (handle_connection (fun b => b) 8192 10 5 [] 8192 10485760 ⟨[], []⟩).2.written = []) ∧
    ((handle_connection (fun b => b) 8192 10 5 [] 8192 10485760
        ⟨[.ok (s8 "GET / HT")], []⟩).1 = .ioErr .invalidData ∧
      (handle_connection (fun b => b) 8192 10 5 [] 8192 10485760
        ⟨[.ok (s8 "GET / HT")], []⟩).2.written = []) := by
  exact ⟨⟨rfl, rfl⟩, ⟨rfl, rfl⟩⟩

/-- Claim C6 (counterexample): a request line with four space-separated
tokens is claimed to yield `UnhandledRequest`, but the source only
requires at least three tokens and ignores the rest, so
`GET / HTTP/1.1 X` parses successfully. -/
theorem C6_request_line_tokens_counterexample :
    (splitSep 32 (s8 "GET / HTTP/1.1 X")).length = 4 ∧
    parse_http_request_line (s8 "GET / HTTP/1.1 X") = .ok (.GET, .Http1_1, s8 "/") := by
  exact ⟨rfl, rfl⟩

/-- Claim C6 (amended): `parse_http_request_line` succeeds exactly on
lines whose split on single spaces has at least three tokens, with the
first a recognized method and the third a recognized version — tokens
beyond the third are ignored — and every other line yields
`UnhandledRequest`. -/
theorem C6_request_line_tokens_amended :
    (∀ line m v p, parse_http_request_line line = .ok (m, v, p) ↔
       (3 ≤ (splitSep 32 line).length ∧
        parse_method ((splitSep 32 line).getD 0 []) = some m ∧
        parse_http_version ((splitSep 32 line).getD 2 []) = some v ∧
        p = (splitSep 32 line).getD 1 [])) ∧
    (∀ line, (¬ ∃ m v p, parse_http_request_line line = .ok (m, v, p)) →
       parse_http_request_line line = .error .unhandledRequest) := by
  have hok : ∀ line m v p, parse_http_request_line line = .ok (m, v, p) ↔
      (3 ≤ (splitSep 32 line).length ∧
       parse_method ((splitSep 32 line).getD 0 []) = some m ∧
       parse_http_version ((splitSep 32 line).getD 2 []) = some v ∧
       p = (splitSep 32 line).getD 1 []) := by
    intro line m v p
    rcases h : splitSep 32 line with _ | ⟨t0, _ | ⟨t1, _ | ⟨t2, rest⟩⟩⟩
    · simp [parse_http_request_line, h]
    · simp [parse_http_request_line, h]
    · simp [parse_http_request_line, h]
    · simp only [parse_http_request_line, h]
      cases hm : parse_method t0 with
      | none => simp [hm, List.getD]
      | some m' =>
        cases hv : parse_http_version t2 with
        | none => simp [hm, hv, List.getD]
        | some v' =>
          simp only [hm, hv, List.getD_cons_zero, List.getD_cons_succ,
            List.length_cons, Except.ok.injEq, Prod.mk.injEq, Option.some.injEq]
          constructor
          · rintro ⟨rfl, rfl, rfl⟩
            exact ⟨by omega, rfl, rfl, rfl⟩
          · rintro ⟨-, rfl, rfl, rfl⟩
            exact ⟨rfl, rfl, rfl⟩
  refine ⟨hok, ?_⟩
  intro line hne
  rcases h : splitSep 32 line with _ | ⟨t0, _ | ⟨t1, _ | ⟨t2, rest⟩⟩⟩ <;>
    simp only [parse_http_request_line, h]
  cases hm : parse_method t0 with
  | none => rfl
  | some m =>
    cases hv : parse_http_version t2 with
    | none => rfl
    | some v =>
      exact absurd ⟨m, v, t1, by simp only [parse_http_request_line, h, hm, hv]⟩ hne

/-- Claim C6 (witness): the amended characterization at concrete
request lines, one accepted and one rejected. -/
theorem C6_request_line_tokens_witness :
    parse_http_request_line (s8 "GET /a HTTP/1.0") = .ok (.GET, .Http1_0, s8 "/a") ∧
    parse_http_request_line (s8 "FOO / HTTP/1.1") = .error .unhandledRequest := by
  constructor
  · exact (C6_request_line_tokens_amended.1 (s8 "GET /a HTTP/1.0") .GET .Http1_0
      (s8 "/a")).mpr (by refine ⟨by decide, by decide, by decide, by decide⟩)
  · exact C6_request_line_tokens_amended.2 (s8 "FOO / HTTP/1.1")
      (fun ⟨m, v, p, hmvp⟩ => by
        rw [show parse_http_request_line (s8 "FOO / HTTP/1.1") =
          .error .unhandledRequest from rfl] at hmvp
        exact absurd hmvp (by simp))

/-- Claim C7 (counterexample): the claim says a header value containing
a byte of 128 or above yields `InvalidHeader`, but the source accepts
every byte that is at least 32 and not 127, so the two-byte UTF-8
encoding of an accented letter is accepted by `parse_header_line`. -/
theorem C7_header_value_bytes_counterexample :
    is_valid_header_value [195, 169] = true ∧
    parse_header_line (s8 "x: " ++ [195, 169]) = .ok (some (s8 "x", [195, 169])) ∧
    ¬ (∀ b ∈ [195, 169], b = 9 ∨ (32 ≤ b ∧ b ≤ 126)) := by
  exact ⟨rfl, rfl, by decide⟩

/-- Claim C7 (amended): `is_valid_header_value` accepts a value exactly
when every byte is TAB (9) or at least 32 and different from 127 — so
DEL (127) is rejected as claimed, but bytes of 128 and above are
accepted, not rejected; and a header line whose value fails the
predicate is rejected by `parse_header_line` with `InvalidHeader`. -/
theorem C7_header_value_bytes_amended :
    (∀ value, is_valid_header_value value = true ↔
       ∀ b ∈ value, b = 9 ∨ (32 ≤ b ∧ b ≠ 127)) ∧
    (∀ value, 127 ∈ value → is_valid_header_value value = false) ∧
    (∀ header rawName rawValue, splitOnceByte 58 header = some (rawName, rawValue) →
       is_valid_header_value (trimStart rawValue) = false →
       parse_header_line header = .error .invalidHeader) := by
  have hiff : ∀ value, is_valid_header_value value = true ↔
      ∀ b ∈ value, b = 9 ∨ (32 ≤ b ∧ b ≠ 127) := by
    intro value
    simp [is_valid_header_value, List.all_eq_true]
  refine ⟨hiff, ?_, ?_⟩
  · intro value hmem
    cases hv : is_valid_header_value value with
    | false => rfl
    | true =>
      have := (hiff value).mp hv 127 hmem
      omega
  · intro header rawName rawValue hsplit hval
    cases header with
    | nil => simp [splitOnceByte] at hsplit
    | cons b t =>
      simp only [parse_header_line, reduceCtorEq, if_false, hsplit]
      simp [hval]

/-- Claim C7 (witness): the amended theorem at concrete values — a
tab-and-letter value accepted, the DEL byte rejected, and a header line
with a control byte rejected. -/
theorem C7_header_value_bytes_witness :
    is_valid_header_value [72, 9] = true ∧
    is_valid_header_value [127] = false ∧
    parse_header_line (s8 "x:" ++ [7]) = .error .invalidHeader := by
  refine ⟨?_, ?_, ?_⟩
  · exact (C7_header_value_bytes_amended.1 [72, 9]).mpr (by decide)
  · exact C7_header_value_bytes_amended.2.1 [127] (by decide)
  · exact C7_header_value_bytes_amended.2.2 (s8 "x:" ++ [7]) (s8 "x") [7]
      (by decide) (by decide)

/-- Claim C2 (counterexample): on a chunked stream whose second
chunk-size line is the unparseable `ZZ`, the claim says `read_chunked`
returns `UnexpectedError`; the source instead hits `unwrap_or(0)` on
the failed hex parse, treats it as the zero-size terminator, and
returns the bytes decoded so far as a success. -/
theorem C2_unparseable_chunk_size_counterexample :
    (read_chunked 8192 10 (s8 "1\r\nA\r\nZZ\r\n") crlf crlf 100 []).1 = .ok (s8 "A") ∧
    (read_chunked 8192 10 (s8 "1\r\nA\r\nZZ\r\n") crlf crlf 100 []).1 ≠
      .err .unexpectedError := by
  exact ⟨rfl, by decide⟩

/-- Claim C2 (amended): a carry-over whose first size line (the bytes
before the first CRLF) does not parse as hexadecimal is treated as a
zero-size terminator: `read_chunked` stops and returns the bytes
decoded so far (none yet at that point) as a success — it does not
return `UnexpectedError`. -/
theorem C2_unparseable_chunk_size_amended :
    ∀ B fuel maxSize i, ∀ extra : List Nat, ∀ s : Stream,
      extra ≠ [] →
      0 < maxSize →
      findSub crlf extra = some i →
      fromStrRadix16 (trimBytes (extra.take i)) = none →
      (read_chunked B (fuel + 1) extra crlf crlf maxSize s).1 = .ok [] := by
  intro B fuel maxSize i extra s hne h0 hfind hparse
  have hbound : i + crlf.length ≤ extra.length := findSub_bound crlf extra i hfind
  have hcl : crlf.length = 2 := rfl
  rw [hcl] at hbound
  have hcontain : bytes_contain extra crlf = true := by
    simp [bytes_contain, hfind]
  simp only [read_chunked, readChunkedGo, List.length_nil, nonpos_iff_eq_zero]
  rw [if_neg (by omega)]
  simp only [hne, ne_eq, not_false_eq_true, if_true, fillCarryGo, hcontain, if_true]
  rw [hfind]
  simp only [hcl]
  have hslice1 : sliceExtract extra 0 (i + 2) = some (extra.take (i + 2)) := by
    simp [sliceExtract, Nat.zero_le, hbound]
  have hslice2 : sliceExtract extra (i + 2) extra.length =
      some ((extra.take extra.length).drop (i + 2)) := by
    simp [sliceExtract, hbound]
  rw [hslice1, hslice2]
  have hlen : (extra.take (i + 2)).length = i + 2 := by
    rw [List.length_take]
    omega
  simp only [hlen]
  rw [if_neg (by omega)]
  have htake : (extra.take (i + 2)).take (i + 2 - 2) = extra.take i := by
    rw [List.take_take]
    congr 1
    omega
  rw [htake]
  simp only [chunkSizeOf, hparse, Option.getD_none]
  simp only [if_true, List.length_nil, nonpos_iff_eq_zero]
  rw [if_neg (by omega)]

/-- Claim C2 (witness): the amended behavior at a concrete carry-over
whose only size line is the unparseable `ZZ`. -/
theorem C2_unparseable_chunk_size_witness :
    (read_chunked 8192 (0 + 1) (s8 "ZZ\r\n") crlf crlf 100 []).1 = .ok [] :=
  C2_unparseable_chunk_size_amended 8192 0 100 2 (s8 "ZZ\r\n") []
    (by decide) (by decide) (by decide) (by decide)

/-- Claim C3 (counterexample): the claim says `Accept-Encoding: GZIP`
(any letter casing) triggers compression for a non-binary content type;
the source's check `e.contains("gzip")` is case-sensitive, so the
upper-case value triggers nothing: no `Content-Encoding: gzip` header
is emitted although the claim's case-insensitive condition holds. -/
theorem C3_gzip_condition_counterexample :
    containsSub (toLowerBytes (s8 "GZIP")) (s8 "gzip") = true ∧
    (text (s8 "Hello")).content_type.is_binary = false ∧
    s8 "Content-Encoding: gzip" ∉
      sendResponseLines (fun b => b)
        { defaultRequest with headers := [(s8 "accept-encoding", .single (s8 "GZIP"))] }
        (text (s8 "Hello")) := by
  exact ⟨by decide, by decide, by decide⟩

/-- Claim C3 (amended): `send_response` emits `Content-Encoding: gzip`
(and compresses) if and only if the request's single-valued
`accept-encoding` header contains `gzip` as a case-SENSITIVE substring
and the response content type is not binary; in particular a binary
content type never gets the header.  The hypothesis excludes handler
headers that would spell the same line themselves. -/
theorem C3_gzip_condition_amended :
    ∀ gzipFn req res,
      (∀ kv ∈ res.headers, headerLineOf kv ≠ s8 "Content-Encoding: gzip") →
      (s8 "Content-Encoding: gzip" ∈ sendResponseLines gzipFn req res ↔
        (∃ v, mapGetSingle req.headers (s8 "accept-encoding") = some v ∧
          containsSub v (s8 "gzip") = true) ∧ res.content_type.is_binary = false) := by
  have hchar : ∀ req res, gzipApplies req res = true ↔
      ((∃ v, mapGetSingle req.headers (s8 "accept-encoding") = some v ∧
        containsSub v (s8 "gzip") = true) ∧ res.content_type.is_binary = false) := by
    intro req res
    simp only [gzipApplies, Bool.and_eq_true, Bool.not_eq_true', acceptsGzipHeader]
    cases hm : mapGetSingle req.headers (s8 "accept-encoding") <;> simp
  have hne_status : ∀ x y z, s8 "HTTP/1.1 " ++ x ++ y ++ z ≠ s8 "Content-Encoding: gzip" := by
    intro x y z
    have h := append_ne_of_getElem (s8 "HTTP/1.1 ") (x ++ y ++ z)
      (s8 "Content-Encoding: gzip") 0 (by decide) (by decide)
    simpa [List.append_assoc] using h
  have hne_ct : ∀ x, s8 "Content-Type: " ++ x ≠ s8 "Content-Encoding: gzip" :=
    fun x => append_ne_of_getElem _ x _ 8 (by decide) (by decide)
  have hne_cl : ∀ x, s8 "Content-Length: " ++ x ≠ s8 "Content-Encoding: gzip" :=
    fun x => append_ne_of_getElem _ x _ 8 (by decide) (by decide)
  intro gzipFn req res hcust
  rw [← hchar]
  cases hgz : gzipApplies req res with
  | true =>
    exact iff_of_true (by simp [sendResponseLines, hgz]) rfl
  | false =>
    refine iff_of_false ?_ (by simp)
    intro hmem
    by_cases hcc : connectionCloseRequested req <;>
      by_cases hte : 8192 < (responseOutBytes gzipFn req res).length
    · simp only [sendResponseLines, hgz, hcc, hte, if_true, if_false,
        Bool.false_eq_true, List.append_nil, List.nil_append, List.mem_append,
        List.mem_cons, List.mem_singleton, List.not_mem_nil, List.mem_map,
        or_false, false_or] at hmem
      rcases hmem with (((h | h) | h | h) | h) | ⟨kv, hkv, hline⟩
      · exact hne_status _ _ _ h.symm
      · exact absurd h (by decide)
      · exact hne_ct _ h.symm
      · exact hne_cl _ h.symm
      · exact absurd h (by decide)
      · exact hcust kv hkv hline
    · simp only [sendResponseLines, hgz, hcc, hte, if_true, if_false,
        Bool.false_eq_true, List.append_nil, List.nil_append, List.mem_append,
        List.mem_cons, List.mem_singleton, List.not_mem_nil, List.mem_map,
        or_false, false_or] at hmem
      rcases hmem with ((h | h) | h | h) | ⟨kv, hkv, hline⟩
      · exact hne_status _ _ _ h.symm
      · exact absurd h (by decide)
      · exact hne_ct _ h.symm
      · exact hne_cl _ h.symm
      · exact hcust kv hkv hline
    · simp only [sendResponseLines, hgz, hcc, hte, if_true, if_false,
        Bool.false_eq_true, List.append_nil, List.nil_append, List.mem_append,
        List.mem_cons, List.mem_singleton, List.not_mem_nil, List.mem_map,
        or_false, false_or] at hmem
      rcases hmem with ((h | h | h) | h) | ⟨kv, hkv, hline⟩
      · exact hne_status _ _ _ h.symm
      · exact hne_ct _ h.symm
      · exact hne_cl _ h.symm
      · exact absurd h (by decide)
      · exact hcust kv hkv hline
    · simp only [sendResponseLines, hgz, hcc, hte, if_true, if_false,
        Bool.false_eq_true, List.append_nil, List.nil_append, List.mem_append,
        List.mem_cons, List.mem_singleton, List.not_mem_nil, List.mem_map,
        or_false, false_or] at hmem
      rcases hmem with (h | h | h) | ⟨kv, hkv, hline⟩
      · exact hne_status _ _ _ h.symm
      · exact hne_ct _ h.symm
      · exact hne_cl _ h.symm
      · exact hcust kv hkv hline

/-- Claim C3 (witness): the amended condition at concrete requests — a
lower-case `gzip` substring triggers the header on a text response, and
a binary content type never gets it. -/
theorem C3_gzip_condition_witness :
    (s8 "Content-Encoding: gzip" ∈
      sendResponseLines (fun b => b)
        { defaultRequest with headers := [(s8 "accept-encoding", .single (s8 "xgzipx"))] }
        (text (s8 "Hello"))) ∧
    (s8 "Content-Encoding: gzip" ∉
      sendResponseLines (fun b => b) defaultRequest
        { text (s8 "Hello") with content_type := APPLICATION_OCTET_STREAM }) := by
  constructor
  · exact (C3_gzip_condition_amended (fun b => b) _ _ (by simp [text])).mpr
      ⟨⟨s8 "xgzipx", by decide, by decide⟩, by decide⟩
  · intro hmem
    have h := (C3_gzip_condition_amended (fun b => b) _ _ (by simp [text])).mp hmem
    have hbin := h.2
    simp [text, APPLICATION_OCTET_STREAM] at hbin

/-- Exhaustive shape analysis of a line emitted by `send_response`: it
is the status line, one of the five fixed headers (the
`Transfer-Encoding` one only with a body over 8192 bytes), or a custom
header line. -/
theorem sendResponseLines_mem_cases (gzipFn : List Nat → List Nat) (req : Request)
    (res : Response) (target : List Nat)
    (h : target ∈ sendResponseLines gzipFn req res) :
    (∃ x y z, target = s8 "HTTP/1.1 " ++ x ++ y ++ z) ∨
    target = s8 "Connection: close" ∨
    target = s8 "Content-Encoding: gzip" ∨
    (∃ x, target = s8 "Content-Type: " ++ x) ∨
    target = s8 "Content-Length: " ++ natToDec (responseOutBytes gzipFn req res).length ∨
    (8192 < (responseOutBytes gzipFn req res).length ∧
      target = s8 "Transfer-Encoding: chunked") ∨
    (∃ kv ∈ res.headers, target = headerLineOf kv) := by
  have hite : ∀ (c : Prop) (inst : Decidable c) (x t : List Nat),
      t ∈ (if c then [x] else []) → c ∧ t = x := by
    intro c inst x t ht
    by_cases hc : c
    · rw [if_pos hc] at ht
      exact ⟨hc, List.mem_singleton.mp ht⟩
    · rw [if_neg hc] at ht
      exact absurd ht (List.not_mem_nil t)
  simp only [sendResponseLines, List.mem_append, List.mem_cons, List.not_mem_nil,
    List.mem_map, or_false, false_or] at h
  rcases h with ((((h | h) | h) | h | h) | h) | ⟨kv, hkv, hline⟩
  · exact Or.inl ⟨_, _, _, h⟩
  · exact Or.inr (Or.inl (hite _ _ _ _ h).2)
  · exact Or.inr (Or.inr (Or.inl (hite _ _ _ _ h).2))
  · exact Or.inr (Or.inr (Or.inr (Or.inl ⟨_, h⟩)))
  · exact Or.inr (Or.inr (Or.inr (Or.inr (Or.inl h))))
  · exact Or.inr (Or.inr (Or.inr (Or.inr (Or.inr (Or.inl
      ⟨(hite _ _ _ _ h).1, (hite _ _ _ _ h).2⟩)))))
  · exact Or.inr (Or.inr (Or.inr (Or.inr (Or.inr (Or.inr ⟨kv, hkv, hline.symm⟩)))))

/-- Claim C4 (confirmed): `send_response` always emits a
`Content-Length` header equal to the length of the possibly-compressed
body (first conjunct — it is present even when chunked transfer is
used); it emits `Transfer-Encoding: chunked` exactly when that length
exceeds 8192 (second conjunct); and, more generally, the emitted header
section carries a line starting with `Transfer-Encoding` exactly in
that case, so a response whose body is at most 8192 bytes has no
`Transfer-Encoding` header (third conjunct).  The hypotheses exclude
handler-supplied custom headers that would spell such a line
themselves. -/
theorem C4_content_length_and_chunking :
    (∀ gzipFn req res,
       (s8 "Content-Length: " ++ natToDec (responseOutBytes gzipFn req res).length) ∈
         sendResponseLines gzipFn req res) ∧
    (∀ gzipFn req res,
       (∀ kv ∈ res.headers, headerLineOf kv ≠ s8 "Transfer-Encoding: chunked") →
       (s8 "Transfer-Encoding: chunked" ∈ sendResponseLines gzipFn req res ↔
         8192 < (responseOutBytes gzipFn req res).length)) ∧
    (∀ gzipFn req res,
       (∀ kv ∈ res.headers,
         (s8 "Transfer-Encoding").isPrefixOf (headerLineOf kv) = false) →
       ((∃ line ∈ sendResponseLines gzipFn req res,
           (s8 "Transfer-Encoding").isPrefixOf line = true) ↔
         8192 < (responseOutBytes gzipFn req res).length)) := by
  have hT_status : ∀ x y z, s8 "HTTP/1.1 " ++ x ++ y ++ z ≠
      s8 "Transfer-Encoding: chunked" := by
    intro x y z
    have h := append_ne_of_getElem (s8 "HTTP/1.1 ") (x ++ (y ++ z))
      (s8 "Transfer-Encoding: chunked") 0 (by decide) (by decide)
    simpa [List.append_assoc] using h
  have hT_ct : ∀ x, s8 "Content-Type: " ++ x ≠ s8 "Transfer-Encoding: chunked" :=
    fun x => append_ne_of_getElem _ x _ 8 (by decide) (by decide)
  have hT_cl : ∀ x, s8 "Content-Length: " ++ x ≠ s8 "Transfer-Encoding: chunked" :=
    fun x => append_ne_of_getElem _ x _ 8 (by decide) (by decide)
  have hp_status : ∀ x y z,
      (s8 "Transfer-Encoding").isPrefixOf (s8 "HTTP/1.1 " ++ x ++ y ++ z) = false := by
    intro x y z
    have h := not_isPrefixOf_append (s8 "Transfer-Encoding") (s8 "HTTP/1.1 ")
      (x ++ (y ++ z)) 0 (by decide) (by decide) (by decide)
    simpa [List.append_assoc] using h
  have hp_ct : ∀ x,
      (s8 "Transfer-Encoding").isPrefixOf (s8 "Content-Type: " ++ x) = false :=
    fun x => not_isPrefixOf_append _ _ x 8 (by decide) (by decide) (by decide)
  have hp_cl : ∀ x,
      (s8 "Transfer-Encoding").isPrefixOf (s8 "Content-Length: " ++ x) = false :=
    fun x => not_isPrefixOf_append _ _ x 8 (by decide) (by decide) (by decide)
  refine ⟨?_, ?_, ?_⟩
  · intro gzipFn req res
    simp [sendResponseLines]
  · intro gzipFn req res hcust
    constructor
    · intro hmem
      rcases sendResponseLines_mem_cases gzipFn req res _ hmem with
        ⟨x, y, z, he⟩ | he | he | ⟨x, he⟩ | he | ⟨hlen, _⟩ | ⟨kv, hkv, he⟩
      · exact absurd he.symm (hT_status x y z)
      · exact absurd he (by decide)
      · exact absurd he (by decide)
      · exact absurd he.symm (hT_ct x)
      · exact absurd he.symm (hT_cl _)
      · exact hlen
      · exact absurd he.symm (hcust kv hkv)
    · intro hlen
      simp [sendResponseLines, hlen]
  · intro gzipFn req res hcust
    constructor
    · rintro ⟨line, hline, hpre⟩
      rcases sendResponseLines_mem_cases gzipFn req res _ hline with
        ⟨x, y, z, he⟩ | he | he | ⟨x, he⟩ | he | ⟨hlen, _⟩ | ⟨kv, hkv, he⟩
      · rw [he, hp_status x y z] at hpre
        exact absurd hpre (Bool.false_ne_true)
      · rw [he] at hpre
        exact absurd hpre (by decide)
      · rw [he] at hpre
        exact absurd hpre (by decide)
      · rw [he, hp_ct x] at hpre
        exact absurd hpre (Bool.false_ne_true)
      · rw [he, hp_cl _] at hpre
        exact absurd hpre (Bool.false_ne_true)
      · exact hlen
      · rw [he, hcust kv hkv] at hpre
        exact absurd hpre (Bool.false_ne_true)
    · intro hlen
      exact ⟨s8 "Transfer-Encoding: chunked", by simp [sendResponseLines, hlen],
        by decide⟩

/-- Claim C4 (witness): a concrete small response — the
`Content-Length` line is emitted and no `Transfer-Encoding` header
appears for a two-byte body. -/
theorem C4_content_length_and_chunking_witness :
    (s8 "Content-Length: " ++
        natToDec (responseOutBytes (fun b => b) defaultRequest (text (s8 "Hi"))).length) ∈
      sendResponseLines (fun b => b) defaultRequest (text (s8 "Hi")) ∧
    ¬ (s8 "Transfer-Encoding: chunked" ∈
        sendResponseLines (fun b => b) defaultRequest (text (s8 "Hi"))) ∧
    ¬ (∃ line ∈ sendResponseLines (fun b => b) defaultRequest (text (s8 "Hi")),
        (s8 "Transfer-Encoding").isPrefixOf line = true) := by
  refine ⟨?_, ?_, ?_⟩
  · exact C4_content_length_and_chunking.1 (fun b => b) defaultRequest (text (s8 "Hi"))
  · intro hmem
    have := (C4_content_length_and_chunking.2.1 (fun b => b) defaultRequest
      (text (s8 "Hi")) (by simp [text])).mp hmem
    exact absurd this (by decide)
  · intro hex
    have := (C4_content_length_and_chunking.2.2 (fun b => b) defaultRequest
      (text (s8 "Hi")) (by simp [text])).mp hex
    exact absurd this (by decide)

theorem lowerByte_idem (b : Nat) : lowerByte (lowerByte b) = lowerByte b := by
  by_cases h : 65 ≤ b ∧ b ≤ 90
  · have h1 : lowerByte b = b + 32 := by simp [lowerByte, h]
    rw [h1]
    simp only [lowerByte]
    rw [if_neg (by omega)]
  · have h1 : lowerByte b = b := by simp [lowerByte, h]
    rw [h1, h1]

theorem toLowerBytes_idem (l : List Nat) : toLowerBytes (toLowerBytes l) = toLowerBytes l := by
  simp only [toLowerBytes, List.map_map]
  apply List.map_congr_left
  intro a _
  exact lowerByte_idem a

/-- Header lines are rejected only with `InvalidHeader`. -/
theorem parse_header_line_error (header : List Nat) (e : RequestParsingError)
    (h : parse_header_line header = .error e) : e = .invalidHeader := by
  by_cases h0 : header = []
  · simp [parse_header_line, h0] at h
  · simp only [parse_header_line, h0, if_false] at h
    cases hs : splitOnceByte 58 header with
    | none => rw [hs] at h; simp at h
    | some p =>
      obtain ⟨rn, rv⟩ := p
      rw [hs] at h
      dsimp only at h
      split at h
      · simp only [Except.error.injEq] at h
        exact h.symm
      · simp at h

/-- A name accepted by `parse_header_line` is already lower-cased. -/
theorem parse_header_line_lower (header n v : List Nat)
    (h : parse_header_line header = .ok (some (n, v))) : toLowerBytes n = n := by
  by_cases h0 : header = []
  · simp [parse_header_line, h0] at h
  · simp only [parse_header_line, h0, if_false] at h
    cases hs : splitOnceByte 58 header with
    | none => rw [hs] at h; simp at h
    | some p =>
      obtain ⟨rn, rv⟩ := p
      rw [hs] at h
      dsimp only at h
      split at h
      · simp at h
      · simp only [Except.ok.injEq, Option.some.injEq, Prod.mk.injEq] at h
        rw [← h.1]
        exact toLowerBytes_idem _

/-- Key set of `mapAdd`: the inserted key plus the existing keys. -/
theorem mapAdd_keys_mem (key value k : List Nat) :
    ∀ m : HMap, (k ∈ (mapAdd key value m).map Prod.fst ↔
      k = key ∨ k ∈ m.map Prod.fst) := by
  intro m
  induction m with
  | nil => simp [mapAdd]
  | cons e rest ih =>
    obtain ⟨k', d⟩ := e
    by_cases hk : k' = key
    · subst hk
      cases d <;> simp [mapAdd]
    · simp only [mapAdd, hk, if_false, List.map_cons, List.mem_cons, ih]
      tauto

/-- An existing key, single or list, makes `add_require_single` fail. -/
theorem mapAddRequireSingle_of_has (key value : List Nat) :
    ∀ m : HMap, mapHas m key = true → mapAddRequireSingle key value m = none := by
  intro m
  induction m with
  | nil => intro h; simp [mapHas] at h
  | cons e rest ih =>
    obtain ⟨k', d⟩ := e
    intro h
    by_cases hk : k' = key
    · simp [mapAddRequireSingle, hk]
    · simp only [mapHas, List.any_cons, Bool.or_eq_true, decide_eq_true_eq] at h
      rcases h with h | h
      · exact absurd h hk
      · simp [mapAddRequireSingle, hk, ih h, mapHas]

/-- A fresh key is appended by `add_require_single`. -/
theorem mapAddRequireSingle_of_not_has (key value : List Nat) :
    ∀ m : HMap, mapHas m key = false →
      mapAddRequireSingle key value m = some (m ++ [(key, .single value)]) := by
  intro m
  induction m with
  | nil => intro _; simp [mapAddRequireSingle]
  | cons e rest ih =>
    obtain ⟨k', d⟩ := e
    intro h
    simp only [mapHas, List.any_cons, Bool.or_eq_false_iff, decide_eq_false_iff_not] at h
    simp [mapAddRequireSingle, h.1, ih (by simp [mapHas, h.2])]

theorem mapHas_iff (m : HMap) (k : List Nat) :
    mapHas m k = true ↔ k ∈ m.map Prod.fst := by
  simp only [mapHas, List.any_eq_true, decide_eq_true_eq, List.mem_map]

/-- Worker errors are always `InvalidHeader`. -/
theorem parseHeadersGo_error :
    ∀ (lines : List (List Nat)) (acc : HMap) (e : RequestParsingError),
      parseHeadersGo acc lines = .error e → e = .invalidHeader := by
  intro lines
  induction lines with
  | nil => intro acc e h; simp [parseHeadersGo] at h
  | cons hl t ih =>
    intro acc e h
    simp only [parseHeadersGo] at h
    cases hp : parse_header_line hl with
    | error e' =>
      rw [hp] at h
      simp only [Except.error.injEq] at h
      rw [← h]
      exact parse_header_line_error hl e' hp
    | ok o =>
      rw [hp] at h
      cases o with
      | none =>
        dsimp only at h
        split at h
        · simp only [Except.error.injEq] at h
          exact h.symm
        · exact ih _ _ h
      | some nv =>
        obtain ⟨n, v⟩ := nv
        dsimp only at h
        split at h
        · exact ih _ _ h
        · cases hadd : mapAddRequireSingle n v acc with
          | some acc2 => rw [hadd] at h; exact ih _ _ h
          | none =>
            rw [hadd] at h
            simp only [Except.error.injEq] at h
            exact h.symm

/-- Keys already present survive the rest of header parsing. -/
theorem parseHeadersGo_keys_mono :
    ∀ (lines : List (List Nat)) (acc : HMap) (m : HMap) (k : List Nat),
      parseHeadersGo acc lines = .ok m → k ∈ acc.map Prod.fst →
      k ∈ m.map Prod.fst := by
  intro lines
  induction lines with
  | nil =>
    intro acc m k h hk
    simp only [parseHeadersGo, Except.ok.injEq] at h
    exact h ▸ hk
  | cons hl t ih =>
    intro acc m k h hk
    simp only [parseHeadersGo] at h
    cases hp : parse_header_line hl with
    | error e' => rw [hp] at h; simp at h
    | ok o =>
      rw [hp] at h
      cases o with
      | none =>
        dsimp only at h
        split at h
        · simp at h
        · exact ih _ _ _ h hk
      | some nv =>
        obtain ⟨n, v⟩ := nv
        dsimp only at h
        split at h
        · exact ih _ _ _ h ((mapAdd_keys_mem n v k acc).mpr (Or.inr hk))
        · cases hadd : mapAddRequireSingle n v acc with
          | none => rw [hadd] at h; simp at h
          | some acc2 =>
            rw [hadd] at h
            cases hhas : mapHas acc n with
            | true => rw [mapAddRequireSingle_of_has n v acc hhas] at hadd; simp at hadd
            | false =>
              rw [mapAddRequireSingle_of_not_has n v acc hhas] at hadd
              simp only [Option.some.injEq] at hadd
              refine ih _ _ _ h ?_
              rw [← hadd]
              simp only [List.map_append, List.mem_append]
              exact Or.inl hk

/-- A later line that parses to a name already in the accumulator and
not in the duplicatable set makes parsing fail with `InvalidHeader`. -/
theorem parseHeadersGo_dup_error :
    ∀ (lines : List (List Nat)) (acc : HMap) (n : List Nat),
      (∃ l ∈ lines, ∃ v, parse_header_line l = .ok (some (n, v))) →
      n ∈ acc.map Prod.fst → header_can_be_duplicate n = false →
      parseHeadersGo acc lines = .error .invalidHeader := by
  intro lines
  induction lines with
  | nil =>
    intro acc n hex _ _
    obtain ⟨l, hl, _⟩ := hex
    exact absurd hl (List.not_mem_nil l)
  | cons hl t ih =>
    intro acc n hex hacc hdup
    obtain ⟨l, hlmem, v, hlparse⟩ := hex
    simp only [parseHeadersGo]
    cases hp : parse_header_line hl with
    | error e' =>
      rw [parse_header_line_error hl e' hp]
    | ok o =>
      cases o with
      | none =>
        dsimp only
        split
        · rfl
        · rename_i hempty
          have hlt : l ∈ t := by
            rcases List.mem_cons.mp hlmem with rfl | hmem
            · rw [hp] at hlparse; simp at hlparse
            · exact hmem
          exact ih acc n ⟨l, hlt, v, hlparse⟩ hacc hdup
      | some nv =>
        obtain ⟨n', v'⟩ := nv
        dsimp only
        split
        · rename_i hdup'
          have hlt : l ∈ t := by
            rcases List.mem_cons.mp hlmem with rfl | hmem
            · rw [hp] at hlparse
              simp only [Except.ok.injEq, Option.some.injEq, Prod.mk.injEq] at hlparse
              rw [hlparse.1, hdup] at hdup'
              simp at hdup'
            · exact hmem
          exact ih _ n ⟨l, hlt, v, hlparse⟩
            ((mapAdd_keys_mem n' v' n acc).mpr (Or.inr hacc)) hdup
        · cases hhas : mapHas acc n' with
          | true => rw [mapAddRequireSingle_of_has n' v' acc hhas]
          | false =>
            rw [mapAddRequireSingle_of_not_has n' v' acc hhas]
            dsimp only
            have hne : n' ≠ n := by
              intro he
              rw [he] at hhas
              rw [(mapHas_iff acc n).mpr hacc] at hhas
              simp at hhas
            have hlt : l ∈ t := by
              rcases List.mem_cons.mp hlmem with rfl | hmem
              · rw [hp] at hlparse
                simp only [Except.ok.injEq, Option.some.injEq, Prod.mk.injEq] at hlparse
                exact absurd hlparse.1 hne
              · exact hmem
            refine ih _ n ⟨l, hlt, v, hlparse⟩ ?_ hdup
            simp only [List.map_append, List.mem_append]
            exact Or.inl hacc

/-- Every key in the parsed map is lower-cased, given the accumulator's
keys are. -/
theorem parseHeadersGo_lower :
    ∀ (lines : List (List Nat)) (acc : HMap) (m : HMap),
      parseHeadersGo acc lines = .ok m →
      (∀ k ∈ acc.map Prod.fst, toLowerBytes k = k) →
      ∀ k ∈ m.map Prod.fst, toLowerBytes k = k := by
  intro lines
  induction lines with
  | nil =>
    intro acc m h hacc
    simp only [parseHeadersGo, Except.ok.injEq] at h
    exact h ▸ hacc
  | cons hl t ih =>
    intro acc m h hacc
    simp only [parseHeadersGo] at h
    cases hp : parse_header_line hl with
    | error e' => rw [hp] at h; simp at h
    | ok o =>
      rw [hp] at h
      cases o with
      | none =>
        dsimp only at h
        split at h
        · simp at h
        · exact ih _ _ h hacc
      | some nv =>
        obtain ⟨n, v⟩ := nv
        dsimp only at h
        have hnl : toLowerBytes n = n := parse_header_line_lower hl n v hp
        split at h
        · refine ih _ _ h ?_
          intro k hk
          rcases (mapAdd_keys_mem n v k acc).mp hk with rfl | hk'
          · exact hnl
          · exact hacc k hk'
        · cases hadd : mapAddRequireSingle n v acc with
          | none => rw [hadd] at h; simp at h
          | some acc2 =>
            rw [hadd] at h
            cases hhas : mapHas acc n with
            | true => rw [mapAddRequireSingle_of_has n v acc hhas] at hadd; simp at hadd
            | false =>
              rw [mapAddRequireSingle_of_not_has n v acc hhas] at hadd
              simp only [Option.some.injEq] at hadd
              refine ih _ _ h ?_
              intro k hk
              rw [← hadd] at hk
              simp only [List.map_append, List.mem_append, List.map_cons,
                List.map_nil, List.mem_singleton] at hk
              rcases hk with hk' | rfl
              · exact hacc k hk'
              · exact hnl

/-- Adding under an existing or fresh key appends the value to the
values already stored under that key. -/
theorem headerValues_mapAdd (key value : List Nat) :
    ∀ m : HMap, headerValues (mapAdd key value m) key =
      headerValues m key ++ [value] := by
  intro m
  induction m with
  | nil => simp [mapAdd, headerValues, mapGet, List.find?, DuplicateMap.as_slice]
  | cons e rest ih =>
    obtain ⟨k', d⟩ := e
    by_cases hk : k' = key
    · subst hk
      cases d <;>
        simp [mapAdd, headerValues, mapGet, List.find?, DuplicateMap.as_slice]
    · simp only [mapAdd, hk, if_false]
      have hfind : ∀ (d' : DuplicateMap) (tl : HMap),
          mapGet ((k', d') :: tl) key = mapGet tl key := by
        intro d' tl
        simp [mapGet, List.find?, hk]
      simp only [headerValues, hfind]
      simpa only [headerValues] using ih

/-- Claim C8 (confirmed): every key of a parsed header map is
lower-cased (first conjunct); two lines carrying the same
non-duplicatable name anywhere in the header block make parsing fail
with `InvalidHeader`, so no duplicate non-listable header survives
(second conjunct); inserting under a repeated name with `add` — the
path taken for the duplicatable set — appends the value to the list of
values already stored (third conjunct), e.g. two `Set-Cookie` lines
parse to a two-element list (fourth conjunct); and the literal request
`GET / HTTP/1.1` with two `Host` headers is answered with status 400
(fifth conjunct). -/
theorem C8_header_map_invariants :
    (∀ lines m, parse_headers lines = .ok m → ∀ kd ∈ m, toLowerBytes kd.1 = kd.1) ∧
    (∀ pre mid post l1 l2 n v1 v2,
       parse_header_line l1 = .ok (some (n, v1)) →
       parse_header_line l2 = .ok (some (n, v2)) →
       header_can_be_duplicate n = false →
       parse_headers (pre ++ l1 :: (mid ++ l2 :: post)) = .error .invalidHeader) ∧
    (∀ (m : HMap) (key value : List Nat),
       headerValues (mapAdd key value m) key = headerValues m key ++ [value]) ∧
    (parse_headers [s8 "Set-Cookie: a", s8 "Set-Cookie: b"] =
       .ok [(s8 "set-cookie", .list [s8 "a", s8 "b"])]) ∧
    ((process_request (fun b => b) 8192 10
        (s8 "GET / HTTP/1.1\r\nHost: x\r\nHost: y\r\n\r\n") [] [] 10485760
        ⟨[], []⟩).2.written =
      s8 "HTTP/1.1 400 Bad Request\r\nContent-Length: 0\r\n\r\n") := by
  have hdup2 : ∀ (pre : List (List Nat)) (acc : HMap) (mid post : List (List Nat))
      (l1 l2 n v1 v2 : List Nat),
      parse_header_line l1 = .ok (some (n, v1)) →
      parse_header_line l2 = .ok (some (n, v2)) →
      header_can_be_duplicate n = false →
      parseHeadersGo acc (pre ++ l1 :: (mid ++ l2 :: post)) = .error .invalidHeader := by
    intro pre
    induction pre with
    | nil =>
      intro acc mid post l1 l2 n v1 v2 h1 h2 hdup
      simp only [List.nil_append, parseHeadersGo, h1]
      simp only [hdup, Bool.false_eq_true, if_false]
      cases hhas : mapHas acc n with
      | true => rw [mapAddRequireSingle_of_has n v1 acc hhas]
      | false =>
        rw [mapAddRequireSingle_of_not_has n v1 acc hhas]
        dsimp only
        exact parseHeadersGo_dup_error (mid ++ l2 :: post) _ n
          ⟨l2, by simp, v2, h2⟩ (by simp) hdup
    | cons p pre' ih =>
      intro acc mid post l1 l2 n v1 v2 h1 h2 hdup
      simp only [List.cons_append, parseHeadersGo]
      cases hp : parse_header_line p with
      | error e' => rw [parse_header_line_error p e' hp]
      | ok o =>
        cases o with
        | none =>
          dsimp only
          split
          · rfl
          · exact ih acc mid post l1 l2 n v1 v2 h1 h2 hdup
        | some nv =>
          obtain ⟨n', v'⟩ := nv
          dsimp only
          split
          · exact ih _ mid post l1 l2 n v1 v2 h1 h2 hdup
          · cases hhas : mapHas acc n' with
            | true => rw [mapAddRequireSingle_of_has n' v' acc hhas]
            | false =>
              rw [mapAddRequireSingle_of_not_has n' v' acc hhas]
              dsimp only
              exact ih _ mid post l1 l2 n v1 v2 h1 h2 hdup
  refine ⟨?_, ?_, ?_, ?_, ?_⟩
  · intro lines m h kd hkd
    exact parseHeadersGo_lower lines [] m h (by simp) kd.1
      (List.mem_map_of_mem Prod.fst hkd)
  · intro pre mid post l1 l2 n v1 v2 h1 h2 hdup
    exact hdup2 pre [] mid post l1 l2 n v1 v2 h1 h2 hdup
  · intro m key value
    exact headerValues_mapAdd key value m
  · rfl
  · rfl

/-- Claim C8 (witness): the duplicate-rejection and lower-casing parts
at concrete header lines — two `Host` lines fail with `InvalidHeader`,
and a parsed `Set-Cookie` key is lower-cased. -/
theorem C8_header_map_invariants_witness :
    parse_headers ([] ++ (s8 "Host: x") :: ([] ++ (s8 "Host: y") :: [])) =
      .error .invalidHeader ∧
    toLowerBytes (s8 "set-cookie") = s8 "set-cookie" := by
  constructor
  · exact C8_header_map_invariants.2.1 [] [] [] (s8 "Host: x") (s8 "Host: y")
      (s8 "host") (s8 "x") (s8 "y") rfl rfl (by decide)
  · exact C8_header_map_invariants.1 [s8 "Set-Cookie: a"]
      [(s8 "set-cookie", .single (s8 "a"))] rfl
      (s8 "set-cookie", .single (s8 "a")) (by simp)

theorem lexLe_total : ∀ a b : List Nat, lexLe a b = true ∨ lexLe b a = true := by
  intro a
  induction a with
  | nil => intro b; exact Or.inl rfl
  | cons x xs ih =>
    intro b
    cases b with
    | nil => exact Or.inr rfl
    | cons y ys =>
      by_cases h1 : x < y
      · exact Or.inl (by simp [lexLe, h1])
      · by_cases h2 : y < x
        · exact Or.inr (by simp [lexLe, h2])
        · rcases ih ys with h | h
          · exact Or.inl (by simp [lexLe, h1, h2, h])
          · exact Or.inr (by simp [lexLe, h1, h2, h])

theorem lexLe_trans : ∀ a b c : List Nat,
    lexLe a b = true → lexLe b c = true → lexLe a c = true := by
  intro a
  induction a with
  | nil => intro b c _ _; rfl
  | cons x xs ih =>
    intro b c hab hbc
    cases b with
    | nil => simp [lexLe] at hab
    | cons y ys =>
      cases c with
      | nil => simp [lexLe] at hbc
      | cons z zs =>
        simp only [lexLe] at hab hbc ⊢
        by_cases h1 : x < y
        · by_cases h2 : y < z
          · rw [if_pos (by omega)]
          · by_cases h3 : z < y
            · rw [if_neg h2, if_pos h3] at hbc
              exact absurd hbc (by simp)
            · have hyz : y = z := by omega
              subst hyz
              rw [if_pos h1]
        · by_cases h3 : y < x
          · rw [if_neg h1, if_pos h3] at hab
            exact absurd hab (by simp)
          · have hxy : x = y := by omega
            subst hxy
            by_cases h2 : x < z
            · rw [if_pos h2]
            · by_cases h4 : z < x
              · rw [if_neg h2, if_pos h4] at hbc
                exact absurd hbc (by simp)
              · rw [if_neg h1, if_neg h3] at hab
                rw [if_neg h2, if_neg h4] at hbc
                rw [if_neg h2, if_neg h4]
                exact ih ys zs hab hbc

theorem mem_insertSorted (x y : List Nat) :
    ∀ l, y ∈ insertSorted x l ↔ y = x ∨ y ∈ l := by
  intro l
  induction l with
  | nil => simp [insertSorted]
  | cons h t ih =>
    by_cases hle : lexLe x h = true
    · simp only [insertSorted, hle, if_true, List.mem_cons]
    · simp only [insertSorted, hle, Bool.false_eq_true, if_false, List.mem_cons, ih]
      tauto

theorem sorted_insertSorted (x : List Nat) :
    ∀ l, l.Pairwise (fun a b => lexLe a b = true) →
      (insertSorted x l).Pairwise (fun a b => lexLe a b = true) := by
  intro l
  induction l with
  | nil => intro _; simp [insertSorted]
  | cons h t ih =>
    intro hp
    rw [List.pairwise_cons] at hp
    obtain ⟨hh, ht⟩ := hp
    by_cases hle : lexLe x h = true
    · simp only [insertSorted, hle, if_true]
      refine List.Pairwise.cons ?_ (List.Pairwise.cons hh ht)
      intro b hb
      rcases List.mem_cons.mp hb with rfl | hbmem
      · exact hle
      · exact lexLe_trans x h b hle (hh b hbmem)
    · simp only [insertSorted, hle, Bool.false_eq_true, if_false]
      refine List.Pairwise.cons ?_ (ih ht)
      intro b hb
      have hmem := (mem_insertSorted x b t).mp hb
      rcases hmem with heq | hbmem
      · rw [heq]
        rcases lexLe_total x h with hxh | hhx
        · exact absurd hxh hle
        · exact hhx
      · exact hh b hbmem

theorem sorted_sortStrs : ∀ l : List (List Nat),
    (sortStrs l).Pairwise (fun a b => lexLe a b = true) := by
  intro l
  induction l with
  | nil => simp [sortStrs]
  | cons h t ih => exact sorted_insertSorted h (sortStrs t) ih

theorem mem_sortStrs (y : List Nat) : ∀ l, y ∈ sortStrs l ↔ y ∈ l := by
  intro l
  induction l with
  | nil => simp [sortStrs]
  | cons h t ih =>
    simp only [sortStrs, mem_insertSorted, List.mem_cons, ih]

/-- A matching `ALL` route anywhere makes the OPTIONS collection the
full seven-method list (the source overwrites the accumulator and
breaks). -/
theorem collectAllowedGo_all (path : List Nat) :
    ∀ (cbs : List HttpListener) (acc : List (List Nat)),
      (∃ l ∈ cbs, path_matches l path = true ∧ l.method = .ALL) →
      collectAllowedGo path cbs acc = sevenMethods := by
  intro cbs
  induction cbs with
  | nil =>
    intro acc h
    obtain ⟨l, hl, _⟩ := h
    exact absurd hl (List.not_mem_nil l)
  | cons c rest ih =>
    intro acc h
    by_cases hm : path_matches c path = true
    · by_cases hall : c.method = .ALL
      · simp [collectAllowedGo, hm, hall]
      · obtain ⟨l, hl, hlm, hla⟩ := h
        have hlr : l ∈ rest := by
          rcases List.mem_cons.mp hl with rfl | h'
          · exact absurd hla hall
          · exact h'
        simp only [collectAllowedGo]
        rw [if_pos hm, if_neg hall]
        cases mst : methodStr c.method with
        | none => exact ih _ ⟨l, hlr, hlm, hla⟩
        | some m =>
          dsimp only
          by_cases hc : acc.contains m = true
          · rw [if_pos hc]
            exact ih _ ⟨l, hlr, hlm, hla⟩
          · rw [if_neg hc]
            exact ih _ ⟨l, hlr, hlm, hla⟩
    · obtain ⟨l, hl, hlm, hla⟩ := h
      have hlr : l ∈ rest := by
        rcases List.mem_cons.mp hl with rfl | h'
        · exact absurd hlm hm
        · exact h'
      simp only [collectAllowedGo]
      rw [if_neg hm]
      exact ih _ ⟨l, hlr, hlm, hla⟩

/-- Without a matching `ALL` route, the OPTIONS collection holds
exactly the accumulator plus the method names of matching routes. -/
theorem collectAllowedGo_mem (path : List Nat) :
    ∀ (cbs : List HttpListener) (acc : List (List Nat)) (m : List Nat),
      (¬ ∃ l ∈ cbs, path_matches l path = true ∧ l.method = .ALL) →
      (m ∈ collectAllowedGo path cbs acc ↔
        m ∈ acc ∨ ∃ l ∈ cbs, path_matches l path = true ∧ methodStr l.method = some m) := by
  intro cbs
  induction cbs with
  | nil => intro acc m _; simp [collectAllowedGo]
  | cons c rest ih =>
    intro acc m hno
    have hnorest : ¬ ∃ l ∈ rest, path_matches l path = true ∧ l.method = .ALL := by
      rintro ⟨l, hl, hx⟩
      exact hno ⟨l, List.mem_cons_of_mem c hl, hx⟩
    by_cases hm : path_matches c path = true
    · have hall : ¬ c.method = .ALL := fun hall =>
        hno ⟨c, List.mem_cons_self c rest, hm, hall⟩
      simp only [collectAllowedGo]
      rw [if_pos hm, if_neg hall]
      cases mst : methodStr c.method with
      | none =>
        dsimp only
        rw [ih acc m hnorest]
        constructor
        · rintro (h | ⟨l, hl, hx⟩)
          · exact Or.inl h
          · exact Or.inr ⟨l, List.mem_cons_of_mem c hl, hx⟩
        · rintro (h | ⟨l, hl, hlm, hms⟩)
          · exact Or.inl h
          · rcases List.mem_cons.mp hl with rfl | hl'
            · rw [mst] at hms
              exact absurd hms (by simp)
            · exact Or.inr ⟨l, hl', hlm, hms⟩
      | some m' =>
        dsimp only
        by_cases hc : acc.contains m' = true
        · rw [if_pos hc, ih acc m hnorest]
          constructor
          · rintro (h | ⟨l, hl, hx⟩)
            · exact Or.inl h
            · exact Or.inr ⟨l, List.mem_cons_of_mem c hl, hx⟩
          · rintro (h | ⟨l, hl, hlm, hms⟩)
            · exact Or.inl h
            · rcases List.mem_cons.mp hl with rfl | hl'
              · rw [mst] at hms
                simp only [Option.some.injEq] at hms
                subst hms
                exact Or.inl (by simpa using hc)
              · exact Or.inr ⟨l, hl', hlm, hms⟩
        · rw [if_neg hc, ih (acc ++ [m']) m hnorest]
          constructor
          · rintro (h | ⟨l, hl, hx⟩)
            · rcases List.mem_append.mp h with h' | h'
              · exact Or.inl h'
              · rw [List.mem_singleton] at h'
                subst h'
                exact Or.inr ⟨c, List.mem_cons_self c rest, hm, mst⟩
            · exact Or.inr ⟨l, List.mem_cons_of_mem c hl, hx⟩
          · rintro (h | ⟨l, hl, hlm, hms⟩)
            · exact Or.inl (List.mem_append_left _ h)
            · rcases List.mem_cons.mp hl with rfl | hl'
              · rw [mst] at hms
                simp only [Option.some.injEq] at hms
                subst hms
                exact Or.inl (List.mem_append_right _ (List.mem_singleton.mpr rfl))
              · exact Or.inr ⟨l, hl', hlm, hms⟩
    · simp only [collectAllowedGo]
      rw [if_neg hm]
      rw [ih acc m hnorest]
      constructor
      · rintro (h | ⟨l, hl, hx⟩)
        · exact Or.inl h
        · exact Or.inr ⟨l, List.mem_cons_of_mem c hl, hx⟩
      · rintro (h | ⟨l, hl, hlm, hms⟩)
        · exact Or.inl h
        · rcases List.mem_cons.mp hl with rfl | hl'
          · exact absurd hlm hm
          · exact Or.inr ⟨l, hl', hlm, hms⟩

/-- Claim C9 (confirmed): for OPTIONS requests the collected
allowed-method set holds exactly the method names of routes matching
the path (first conjunct), a matching `ALL` route expands it to
GET/POST/PUT/DELETE/PATCH/OPTIONS/HEAD (second conjunct), the emitted
`Allow` list is sorted ascending (third conjunct) and consists of the
collected set with OPTIONS added when missing (fourth conjunct);
`OPTIONS /users/123` against a lone `GET /users/:id` route is answered
200 with `Allow: GET, OPTIONS` (fifth conjunct), and an OPTIONS request
matching no route is answered 404 (sixth conjunct). -/
theorem C9_options_dispatch :
    (∀ (cbs : List HttpListener) (path m : List Nat),
       (¬ ∃ l ∈ cbs, path_matches l path = true ∧ l.method = .ALL) →
       (m ∈ collectAllowed cbs path ↔
         ∃ l ∈ cbs, path_matches l path = true ∧ methodStr l.method = some m)) ∧
    (∀ (cbs : List HttpListener) (path : List Nat),
       (∃ l ∈ cbs, path_matches l path = true ∧ l.method = .ALL) →
       collectAllowed cbs path = sevenMethods) ∧
    (∀ ms : List (List Nat),
       (sortStrs ms).Pairwise (fun a b => lexLe a b = true)) ∧
    (∀ (ms : List (List Nat)) (m : List Nat),
       m ∈ sortStrs (if ms.contains (s8 "OPTIONS") then ms else ms ++ [s8 "OPTIONS"]) ↔
         (m = s8 "OPTIONS" ∨ m ∈ ms)) ∧
    ((process_request (fun b => b) 8192 10
        (s8 "OPTIONS /users/123 HTTP/1.1\r\nHost: x\r\n\r\n") []
        [⟨s8 "/users/:id", .GET, fun _ => text (s8 "u")⟩] 10485760 ⟨[], []⟩).2.written =
      s8 "HTTP/1.1 200 OK\r\nContent-Type: text/plain\r\nContent-Length: 0\r\nAllow: GET, OPTIONS\r\n\r\n") ∧
    ((process_request (fun b => b) 8192 10
        (s8 "OPTIONS /nope HTTP/1.1\r\nHost: x\r\n\r\n") []
        [⟨s8 "/users/:id", .GET, fun _ => text (s8 "u")⟩] 10485760 ⟨[], []⟩).2.written =
      s8 "HTTP/1.1 404 Not Found\r\nContent-Length: 0\r\n\r\n") := by
  refine ⟨?_, ?_, ?_, ?_, rfl, rfl⟩
  · intro cbs path m hno
    exact collectAllowedGo_mem path cbs [] m hno |>.trans (by simp)
  · intro cbs path h
    exact collectAllowedGo_all path cbs [] h
  · exact sorted_sortStrs
  · intro ms m
    by_cases hc : ms.contains (s8 "OPTIONS") = true
    · rw [if_pos hc, mem_sortStrs]
      constructor
      · intro h
        exact Or.inr h
      · rintro (rfl | h)
        · simpa using hc
        · exact h
    · rw [if_neg hc, mem_sortStrs, List.mem_append, List.mem_singleton]
      tauto

/-- Claim C9 (witness): the characterizations at a concrete route
table — GET is collected for the matching parameterized route, an ALL
route expands to the seven methods, and OPTIONS joins the sorted
list. -/
theorem C9_options_dispatch_witness :
    (s8 "GET" ∈ collectAllowed [⟨s8 "/users/:id", .GET, fun _ => text (s8 "u")⟩]
      (s8 "/users/123")) ∧
    collectAllowed [⟨s8 "/x", .ALL, fun _ => text (s8 "u")⟩] (s8 "/x") = sevenMethods ∧
    (s8 "OPTIONS" ∈ sortStrs
      (if ([s8 "GET"] : List (List Nat)).contains (s8 "OPTIONS") then [s8 "GET"]
       else [s8 "GET"] ++ [s8 "OPTIONS"])) := by
  refine ⟨?_, ?_, ?_⟩
  · refine (C9_options_dispatch.1 _ _ _ ?_).mpr
      ⟨_, List.mem_singleton.mpr rfl, by decide, by decide⟩
    rintro ⟨l, hl, _, hall⟩
    rw [List.mem_singleton] at hl
    subst hl
    exact absurd hall (by decide)
  · exact C9_options_dispatch.2.1 _ _ ⟨_, List.mem_singleton.mpr rfl, by decide, rfl⟩
  · exact (C9_options_dispatch.2.2.2.1 [s8 "GET"] (s8 "OPTIONS")).mpr (Or.inl rfl)

theorem streamData_length : ∀ s : Stream, (streamData s).length = avail s := by
  intro s
  induction s with
  | nil => rfl
  | cons ev rest ih =>
    cases ev with
    | error e => rfl
    | ok seg =>
      cases seg with
      | nil => rfl
      | cons b sg =>
        simp [streamData, avail, ih]
        omega

/-- Adequacy of the `read_n` loop: when the stream has at least the
missing bytes available before its first stop event and the fuel
exceeds that count, the loop returns the buffer extended with exactly
the missing prefix of the stream.  This is the heart of claim C1. -/
theorem readNGo_spec (B size : Nat) (hB : 0 < B) :
    ∀ (fuel : Nat) (out : List Nat) (s : Stream),
      out.length < size →
      size ≤ out.length + avail s →
      size - out.length < fuel →
      (readNGo B size fuel out s).1 =
        .ok (out ++ (streamData s).take (size - out.length)) := by
  intro fuel
  induction fuel with
  | zero =>
    intro out s h1 h2 h3
    omega
  | succ f ih =>
    intro out s h1 h2 h3
    have havail : 0 < avail s := by omega
    rcases s with _ | ⟨ev, rest⟩
    · simp [avail] at havail
    rcases ev with e | seg
    · simp [avail] at havail
    rcases seg with _ | ⟨b, sg⟩
    · simp [avail] at havail
    have hav : avail (.ok (b :: sg) :: rest) = (sg.length + 1) + avail rest := by
      simp [avail]
    have hsd : streamData (.ok (b :: sg) :: rest) = (b :: sg) ++ streamData rest := rfl
    have hreq1 : 1 ≤ (if size - out.length < B then size - out.length else B) := by
      split <;> omega
    have hreq2 : (if size - out.length < B then size - out.length else B) ≤
        size - out.length := by
      split <;> omega
    simp only [readNGo, read_buffer]
    set req := if size - out.length < B then size - out.length else B with hreqdef
    have hn1 : (b :: sg).length = sg.length + 1 := by simp
    have hbslen : ((b :: sg).take req).length = min req (sg.length + 1) := by
      simp [List.length_take]
    rcases hdrop : (b :: sg).drop req with _ | ⟨c, cs⟩
    · -- the whole segment was consumed: sg.length + 1 ≤ req
      have hle : sg.length + 1 ≤ req := by
        have hdl := List.length_drop req (b :: sg)
        rw [hdrop, hn1] at hdl
        simp at hdl
        omega
      have hbs : (b :: sg).take req = b :: sg := List.take_of_length_le (by omega)
      rw [if_pos (show ([] : List Nat) = [] from rfl), hbs]
      rw [if_neg (by simp)]
      by_cases hfin : size ≤ out.length + (b :: sg).length
      · rw [if_pos hfin]
        have hkeq : size - out.length = sg.length + 1 := by
          rw [hn1] at hfin
          omega
        rw [hsd, List.take_append_eq_append_take, hkeq]
        rw [List.take_of_length_le (by omega)]
        simp
      · rw [if_neg hfin]
        have hfin2 : out.length + (sg.length + 1) < size := by
          rw [hn1] at hfin
          omega
        have h2b : size ≤ (out ++ b :: sg).length + avail rest := by
          rw [List.length_append, hn1]
          omega
        have ihr := ih (out ++ b :: sg) rest
          (by rw [List.length_append, hn1]; omega) h2b
          (by rw [List.length_append, hn1]; omega)
        rw [ihr, hsd, List.take_append_eq_append_take]
        rw [show (b :: sg).take (size - out.length) = b :: sg from
          List.take_of_length_le (by rw [hn1]; omega)]
        rw [List.append_assoc]
        have harg : size - (out ++ b :: sg).length =
            size - out.length - (b :: sg).length := by
          rw [List.length_append]
          omega
        rw [harg]
    · -- part of the segment remains: req < sg.length + 1
      have hlt : req < sg.length + 1 := by
        have hdl := List.length_drop req (b :: sg)
        rw [hdrop, hn1] at hdl
        simp at hdl
        omega
      have hbs : ((b :: sg).take req).length = req := by omega
      rw [if_neg (show ¬ (c :: cs : List Nat) = [] from by simp)]
      rw [if_neg (by omega)]
      by_cases hfin : size ≤ out.length + ((b :: sg).take req).length
      · rw [if_pos hfin]
        have hkeq : size - out.length = req := by omega
        rw [hsd, List.take_append_eq_append_take, hkeq]
        rw [show req - (b :: sg).length = 0 from by rw [hn1]; omega]
        simp
      · rw [if_neg hfin]
        have havs2 : avail (.ok (c :: cs) :: rest) = (cs.length + 1) + avail rest := by
          simp [avail]
        have hcs : cs.length + 1 = sg.length + 1 - req := by
          have hdl := List.length_drop req (b :: sg)
          rw [hdrop, hn1] at hdl
          simp at hdl
          omega
        have h2b : size ≤ (out ++ (b :: sg).take req).length +
            avail (.ok (c :: cs) :: rest) := by
          rw [List.length_append, hbs, havs2]
          omega
        have ihr := ih (out ++ (b :: sg).take req) (.ok (c :: cs) :: rest)
          (by rw [List.length_append, hbs]; omega) h2b
          (by rw [List.length_append, hbs]; omega)
        rw [ihr]
        have hsd2 : streamData (Except.ok (c :: cs) :: rest) =
            (c :: cs) ++ streamData rest := rfl
        have hglue : streamData (Except.ok (b :: sg) :: rest) =
            (b :: sg).take req ++ streamData (Except.ok (c :: cs) :: rest) := by
          rw [hsd, hsd2, ← List.append_assoc]
          rw [show (b :: sg).take req ++ (c :: cs) = b :: sg from by
            rw [← hdrop]
            exact List.take_append_drop req (b :: sg)]
        rw [hglue, List.take_append_eq_append_take]
        rw [show ((b :: sg).take req).take (size - out.length) = (b :: sg).take req from
          List.take_of_length_le (by rw [hbs]; omega)]
        rw [List.append_assoc]
        have harg : size - (out ++ (b :: sg).take req).length =
            size - out.length - ((b :: sg).take req).length := by
          rw [List.length_append]
          omega
        rw [harg]

/-- Claim C1 (counterexample): the claim says the body has length
exactly N even when more than N bytes were already buffered past the
terminator; the source extends the body with ALL carry-over bytes and
only skips the read, so with N = 1 and a two-byte carry-over the body
has length 2. -/
theorem C1_content_length_body_counterexample :
    (parse_body_from_content_length 8192 1 [65, 66] 100 []).1 = .ok [65, 66] ∧
    ([65, 66] : List Nat).length ≠ 1 := by
  exact ⟨rfl, by decide⟩

/-- Claim C1 (amended): when at most N bytes were buffered past the
terminator (and N is within the size cap, and the connection delivers
the remainder before end-of-stream or an error), the body delivered by
`parse_body_from_content_length` is exactly the carry-over followed by
the missing remainder of the stream — the N bytes following the header
terminator — and has length exactly N.  When more than N bytes were
buffered the whole carry-over is returned instead (see the
counterexample). -/
theorem C1_content_length_body_amended :
    ∀ (B contentLength maxBody : Nat) (extraBytes : List Nat) (s : Stream),
      0 < B →
      extraBytes.length ≤ contentLength →
      contentLength ≤ maxBody →
      contentLength - extraBytes.length ≤ avail s →
      (parse_body_from_content_length B contentLength extraBytes maxBody s).1 =
        .ok (extraBytes ++ (streamData s).take (contentLength - extraBytes.length)) ∧
      (extraBytes ++
        (streamData s).take (contentLength - extraBytes.length)).length =
        contentLength := by
  intro B N maxBody extra s hB hle hmax hav
  have hlen : ((streamData s).take (N - extra.length)).length = N - extra.length := by
    rw [List.length_take, streamData_length]
    omega
  constructor
  · by_cases hx : extra.length < N
    · simp only [parse_body_from_content_length]
      rw [if_neg (by omega), if_pos hx]
      rcases hr : read_n B (N - extra.length) s with ⟨r, s2⟩
      have hr1 : r = .ok ((streamData s).take (N - extra.length)) := by
        have hspec := readNGo_spec B (N - extra.length) hB (N - extra.length + 1) [] s
          (by simp; omega) (by simp; omega) (by simp)
        rw [show readNGo B (N - extra.length) (N - extra.length + 1) [] s =
          read_n B (N - extra.length) s from rfl, hr] at hspec
        simpa using hspec
      subst hr1
      rfl
    · simp only [parse_body_from_content_length]
      rw [if_neg (by omega), if_neg hx]
      rw [show N - extra.length = 0 from by omega]
      simp
  · rw [List.length_append, hlen]
    omega

/-- Claim C1 (witness): a three-byte body assembled from a one-byte
carry-over and two bytes read from the stream. -/
theorem C1_content_length_body_witness :
    (parse_body_from_content_length 8192 3 [65] 10 [.ok [66, 67, 68]]).1 =
      .ok ([65] ++
        (streamData [.ok [66, 67, 68]]).take (3 - ([65] : List Nat).length)) ∧
    (([65] : List Nat) ++
      (streamData [.ok [66, 67, 68]]).take (3 - ([65] : List Nat).length)).length = 3 :=
  C1_content_length_body_amended 8192 3 10 [65] [.ok [66, 67, 68]]
    (by decide) (by decide) (by decide) (by decide)

end HttpSrv
